import Mathlib

/-!
# Verification of the OpenAI-custom VS Code chat provider

Shallow embedding of the protocol adapter and streaming reconstruction
engine of `openai-custom-vscode-chat`:

* a model of the JavaScript JSON runtime (`JSON.parse` / `JSON.stringify`)
  used by the stream parsers and the tool-call reconstructor;
* the tool-call reconstructor and inline tool-call tokenizer state machines
  from `src/provider.ts` (`processStreamingResponse`, `tryEmitBufferedToolCall`,
  `flushToolCallBuffers`, `processTextContent`, `emitTextToolCallIfValid`);
* the two stream-event parsers and request builders from `src/adapters.ts`
  (`ChatCompletionsAdapter`, `ResponsesAdapter`).

Numbers are modelled as exact decimals `mantissa * 10 ^ exp10`; this is
faithful for every integral JSON number (the only numbers the streaming
protocol produces: tool-call indices) and ignores IEEE-754 rounding of
non-integral literals, which no verified property touches.
-/

namespace OAC

/-- JavaScript JSON value as produced by `JSON.parse`.  Object fields keep
insertion order (later duplicate keys overwrite the value in place, as in
JavaScript). -/
inductive Json where
  | null : Json
  | bool (b : Bool) : Json
  | num (mantissa : Int) (exp10 : Int) : Json
  | str (s : String) : Json
  | arr (elems : List Json) : Json
  | obj (fields : List (String × Json)) : Json
  deriving Repr

/-- JSON insignificant whitespace accepted by `JSON.parse`. -/
def isJsonWs (c : Char) : Bool :=
  c == ' ' || c == '\t' || c == '\n' || c == '\r'

/-- Skip insignificant whitespace. -/
def skipWs : List Char → List Char
  | [] => []
  | c :: cs => if isJsonWs c then skipWs cs else c :: cs

/-- Value of a hexadecimal digit. -/
def hexVal (c : Char) : Option Nat :=
  if '0' ≤ c ∧ c ≤ '9' then some (c.toNat - '0'.toNat)
  else if 'a' ≤ c ∧ c ≤ 'f' then some (c.toNat - 'a'.toNat + 10)
  else if 'A' ≤ c ∧ c ≤ 'F' then some (c.toNat - 'A'.toNat + 10)
  else none

/-- Parse the body of a JSON string literal (the opening quote has been
consumed), handling the escape sequences of the JSON grammar. -/
def parseStringBody : List Char → List Char → Option (String × List Char)
  | acc, '"' :: rest => some (String.mk acc.reverse, rest)
  | acc, '\\' :: e :: rest =>
    match e with
    | '"' => parseStringBody ('"' :: acc) rest
    | '\\' => parseStringBody ('\\' :: acc) rest
    | '/' => parseStringBody ('/' :: acc) rest
    | 'b' => parseStringBody ('\x08' :: acc) rest
    | 'f' => parseStringBody ('\x0c' :: acc) rest
    | 'n' => parseStringBody ('\n' :: acc) rest
    | 'r' => parseStringBody ('\r' :: acc) rest
    | 't' => parseStringBody ('\t' :: acc) rest
    | 'u' =>
      match rest with
      | h1 :: h2 :: h3 :: h4 :: rest' =>
        match hexVal h1, hexVal h2, hexVal h3, hexVal h4 with
        | some a, some b, some c, some d =>
          let n := ((a * 16 + b) * 16 + c) * 16 + d
          if n.isValidChar then parseStringBody (Char.ofNat n :: acc) rest'
          else parseStringBody ('�' :: acc) rest'
        | _, _, _, _ => none
      | _ => none
    | _ => none
  | acc, c :: rest =>
    -- JSON forbids raw control characters in strings
    if c.toNat < 0x20 then none else parseStringBody (c :: acc) rest
  | _, [] => none

/-- Is this character an ASCII digit? -/
def isDig (c : Char) : Bool := '0' ≤ c && c ≤ '9'

/-- Split the longest leading run of digits. -/
def takeDigits (cs : List Char) : List Char × List Char :=
  match cs with
  | c :: rest =>
    if isDig c then
      let (ds, rs) := takeDigits rest
      (c :: ds, rs)
    else ([], cs)
  | [] => ([], [])

/-- Natural-number value of a digit run. -/
def digitsToNat (ds : List Char) : Nat :=
  ds.foldl (fun acc c => acc * 10 + (c.toNat - '0'.toNat)) 0

/-- Parse a JSON number literal, returning `(mantissa, exp10)` with the
exact value `mantissa * 10 ^ exp10`, normalised so that `exp10 ≤ 0`. -/
def parseNumberLex (cs : List Char) : Option ((Int × Int) × List Char) :=
  let (neg, cs₁) :=
    match cs with
    | '-' :: rest => (true, rest)
    | _ => (false, cs)
  let (intDs, cs₂) := takeDigits cs₁
  if intDs.isEmpty then none
  else if intDs.length > 1 ∧ intDs.headD '0' = '0' then none  -- no leading zeros
  else
    let (fracDs, cs₃) :=
      match cs₂ with
      | '.' :: rest =>
        let (ds, rs) := takeDigits rest
        (ds, rs)
      | _ => ([], cs₂)
    -- a '.' must be followed by at least one digit
    if cs₂.headD ' ' = '.' ∧ fracDs.isEmpty then none
    else
      let afterFrac := cs₃
      let expPart : Option (Int × List Char) :=
        match afterFrac with
        | e :: rest =>
          if e = 'e' ∨ e = 'E' then
            let (esign, rest₁) :=
              match rest with
              | '+' :: r => ((1 : Int), r)
              | '-' :: r => ((-1 : Int), r)
              | _ => ((1 : Int), rest)
            let (eds, rest₂) := takeDigits rest₁
            if eds.isEmpty then none else some (esign * (digitsToNat eds : Int), rest₂)
          else some (0, afterFrac)
        | [] => some (0, afterFrac)
      match expPart with
      | none => none
      | some (e, rest) =>
        let mantAbs : Nat := digitsToNat (intDs ++ fracDs)
        let mant : Int := if neg then -(mantAbs : Int) else (mantAbs : Int)
        let exp : Int := e - (fracDs.length : Int)
        if exp > 0 then
          some ((mant * 10 ^ exp.toNat, 0), rest)
        else
          some ((mant, exp), rest)

/-- Insert-or-update of a JSON object field: later duplicate keys overwrite
the value in place, matching `JSON.parse`. -/
def objInsert (fields : List (String × Json)) (k : String) (v : Json) :
    List (String × Json) :=
  if fields.any (fun f => f.1 = k) then
    fields.map (fun f => if f.1 = k then (k, v) else f)
  else fields ++ [(k, v)]

mutual

/-- Parse one JSON value.  `fuel` bounds the recursion; callers supply fuel
larger than the input length, which bounds nesting depth plus element
count, so well-formed inputs never exhaust it. -/
def parseValue : Nat → List Char → Option (Json × List Char)
  | 0, _ => none
  | fuel + 1, cs =>
    let cs := skipWs cs
    match cs with
    | [] => none
    | '{' :: rest =>
      let rest := skipWs rest
      match rest with
      | '}' :: rest' => some (.obj [], rest')
      | _ => parseMembers fuel [] rest
    | '[' :: rest =>
      let rest := skipWs rest
      match rest with
      | ']' :: rest' => some (.arr [], rest')
      | _ => parseElems fuel [] rest
    | '"' :: rest =>
      match parseStringBody [] rest with
      | some (s, rest') => some (.str s, rest')
      | none => none
    | 't' :: rest =>
      if ('r' :: 'u' :: 'e' :: []).isPrefixOf rest then
        some (.bool true, rest.drop 3)
      else none
    | 'f' :: rest =>
      if ('a' :: 'l' :: 's' :: 'e' :: []).isPrefixOf rest then
        some (.bool false, rest.drop 4)
      else none
    | 'n' :: rest =>
      if ('u' :: 'l' :: 'l' :: []).isPrefixOf rest then
        some (.null, rest.drop 3)
      else none
    | _ =>
      match parseNumberLex cs with
      | some ((m, e), rest) => some (.num m e, rest)
      | none => none

/-- Parse the members of a JSON object after `{` (with at least one member). -/
def parseMembers : Nat → List (String × Json) → List Char →
    Option (Json × List Char)
  | 0, _, _ => none
  | fuel + 1, acc, cs =>
    match skipWs cs with
    | '"' :: rest =>
      match parseStringBody [] rest with
      | some (k, rest₁) =>
        match skipWs rest₁ with
        | ':' :: rest₂ =>
          match parseValue fuel rest₂ with
          | some (v, rest₃) =>
            let acc := objInsert acc k v
            match skipWs rest₃ with
            | ',' :: rest₄ => parseMembers fuel acc rest₄
            | '}' :: rest₄ => some (.obj acc, rest₄)
            | _ => none
          | none => none
        | _ => none
      | none => none
    | _ => none

/-- Parse the elements of a JSON array after `[` (with at least one element). -/
def parseElems : Nat → List Json → List Char → Option (Json × List Char)
  | 0, _, _ => none
  | fuel + 1, acc, cs =>
    match parseValue fuel cs with
    | some (v, rest) =>
      match skipWs rest with
      | ',' :: rest' => parseElems fuel (acc ++ [v]) rest'
      | ']' :: rest' => some (.arr (acc ++ [v]), rest')
      | _ => none
    | none => none

end

/-- Model of JavaScript `JSON.parse`: `none` on any syntax error (the
exception), `some` on success.  The whole input must be consumed up to
trailing whitespace. -/
def jsonParse (s : String) : Option Json :=
  match parseValue (2 * s.length + 4) s.data with
  | some (j, rest) => if (skipWs rest).isEmpty then some j else none
  | none => none

/-- Escape a string as `JSON.stringify` does. -/
def escapeJsonChar (c : Char) : List Char :=
  if c = '"' then ['\\', '"']
  else if c = '\\' then ['\\', '\\']
  else if c = '\n' then ['\\', 'n']
  else if c = '\r' then ['\\', 'r']
  else if c = '\t' then ['\\', 't']
  else if c = '\x08' then ['\\', 'b']
  else if c = '\x0c' then ['\\', 'f']
  else if c.toNat < 0x20 then
    let hx := Nat.toDigits 16 c.toNat
    '\\' :: 'u' :: (List.replicate (4 - hx.length) '0' ++ hx)
  else [c]

/-- `JSON.stringify` of a string literal. -/
def stringifyStr (s : String) : String :=
  "\"" ++ String.mk (s.data.flatMap escapeJsonChar) ++ "\""

/-- Decimal rendering of an exact decimal `m * 10 ^ e` with `e ≤ 0`. -/
def stringifyNum (m : Int) (e : Int) : String :=
  if e = 0 then toString m
  else
    let k := (-e).toNat
    let absDigits := toString m.natAbs
    let padded :=
      if absDigits.length ≤ k then
        String.mk (List.replicate (k + 1 - absDigits.length) '0') ++ absDigits
      else absDigits
    let intPart := padded.dropRight k
    let fracPart := padded.takeRight k
    (if m < 0 then "-" else "") ++ intPart ++ "." ++ fracPart

mutual

/-- Model of JavaScript `JSON.stringify` (no spacing argument). -/
def jsonStringify : Json → String
  | .null => "null"
  | .bool true => "true"
  | .bool false => "false"
  | .num m e => stringifyNum m e
  | .str s => stringifyStr s
  | .arr es => "[" ++ jsonStringifyElems es ++ "]"
  | .obj fs => "\x7b" ++ jsonStringifyFields fs ++ "\x7d"

/-- Array elements of `JSON.stringify`, comma-separated. -/
def jsonStringifyElems : List Json → String
  | [] => ""
  | [j] => jsonStringify j
  | j :: rest => jsonStringify j ++ "," ++ jsonStringifyElems rest

/-- Object fields of `JSON.stringify`, comma-separated. -/
def jsonStringifyFields : List (String × Json) → String
  | [] => ""
  | [(k, v)] => stringifyStr k ++ ":" ++ jsonStringify v
  | (k, v) :: rest =>
    stringifyStr k ++ ":" ++ jsonStringify v ++ "," ++ jsonStringifyFields rest

end

/-- Modelled from the spec: `tryParseJSONObject` is defined in
`src/utils.ts`, which is not among the provided sources (only its callers
in `src/provider.ts` are).  Per the spec, a tool-call buffer "flushes
exactly when … its accumulated arguments parse as a JSON object", so the
helper succeeds exactly when `JSON.parse` succeeds and yields an object.
`some v` models `{ok: true, value: v}`, `none` models `{ok: false}`. -/
def tryParseJSONObject (s : String) : Option Json :=
  match jsonParse s with
  | some j =>
    match j with
    | .obj _ => some j
    | _ => none
  | none => none

/-! ## Tool-call reconstructor state (`src/provider.ts`)

The per-turn mutable fields of `OpenAICustomChatModelProvider` and the
methods that mutate them, with `progress.report` modelled by returning the
list of reported parts.  JavaScript `Map`/`Set` are modelled by
insertion-ordered association lists / lists. -/

/-- A `tool_call` stream event (`StreamEventResult`'s `tool_call` variant). -/
structure ToolCallEvent where
  index : Nat
  id : Option String := none
  name : Option String := none
  args : Option String := none
  deriving Repr, DecidableEq

/-- Buffer for assembling streamed tool calls by index. -/
structure ToolCallBuffer where
  id : Option String := none
  name : Option String := none
  args : String := ""
  deriving Repr, DecidableEq

/-- State of a tool call being reconstructed from inline text control
tokens (`_textToolActive`). -/
structure ActiveTextToolCall where
  name : Option String := none
  index : Option Nat := none
  argBuffer : String := ""
  emitted : Bool := false
  deriving Repr, DecidableEq

/-- A part reported to the host's progress sink.  A `toolCall` id of `none`
models the randomly generated fallback id (`call_…` / `tct_…`). -/
inductive Part where
  | text (s : String)
  | toolCall (id : Option String) (name : String) (input : Json)
  | thinking (text : String) (id : Option String)
  | data (mime : String) (payload : String)
  deriving Repr

/-- `Map.get`, on an insertion-ordered association list. -/
def mapGet (m : List (Nat × ToolCallBuffer)) (k : Nat) : Option ToolCallBuffer :=
  match m with
  | [] => none
  | (k', v) :: rest => if k' = k then some v else mapGet rest k

/-- `Map.set`: overwrite in place, or append a new binding. -/
def mapSet (m : List (Nat × ToolCallBuffer)) (k : Nat) (v : ToolCallBuffer) :
    List (Nat × ToolCallBuffer) :=
  match m with
  | [] => [(k, v)]
  | (k', v') :: rest =>
    if k' = k then (k, v) :: rest else (k', v') :: mapSet rest k v

/-- `Map.delete`. -/
def mapDelete (m : List (Nat × ToolCallBuffer)) (k : Nat) :
    List (Nat × ToolCallBuffer) :=
  match m with
  | [] => []
  | (k', v') :: rest =>
    if k' = k then rest else (k', v') :: mapDelete rest k

/-- `Set.add`: append if absent. -/
def setAdd {α : Type} [DecidableEq α] (s : List α) (x : α) : List α :=
  if x ∈ s then s else s ++ [x]

/-- The per-turn mutable fields of the provider. -/
structure TurnState where
  toolCallBuffers : List (Nat × ToolCallBuffer) := []
  completedToolCallIndices : List Nat := []
  hasEmittedAssistantText : Bool := false
  emittedBeginToolCallsHint : Bool := false
  textToolParserBuffer : String := ""
  textToolActive : Option ActiveTextToolCall := none
  emittedTextToolCallKeys : List String := []
  emittedTextToolCallIds : List String := []
  deriving Repr, DecidableEq

/-- The state of a freshly constructed provider. -/
def freshTurnState : TurnState := {}

/-- `tryEmitBufferedToolCall` (`src/provider.ts`): emit a buffered tool
call once it has a (truthy) name and its accumulated arguments parse as a
JSON object; record the `(name, canonical-arguments)` key, delete the
buffer and mark the index completed. -/
def tryEmitBufferedToolCall (st : TurnState) (index : Nat) :
    TurnState × List Part :=
  match mapGet st.toolCallBuffers index with
  | none => (st, [])
  | some buf =>
    match buf.name with
    | none => (st, [])
    | some name =>
      if name.isEmpty then (st, [])  -- `if (!buf.name)` is also true for ""
      else
        match tryParseJSONObject buf.args with
        | none => (st, [])
        | some parameters =>
          let canonical := jsonStringify parameters
          let st := { st with
            emittedTextToolCallKeys :=
              setAdd st.emittedTextToolCallKeys (name ++ ":" ++ canonical) }
          let st := { st with
            toolCallBuffers := mapDelete st.toolCallBuffers index,
            completedToolCallIndices :=
              setAdd st.completedToolCallIndices index }
          (st, [Part.toolCall buf.id name parameters])

/-- The three set-if-truthy field updates applied to a tool-call buffer by
one `tool_call` event (`if (event.id) … if (event.name) … if (event.args)`;
an empty string is falsy in JavaScript). -/
def applyDeltaToBuffer (buf : ToolCallBuffer) (ev : ToolCallEvent) :
    ToolCallBuffer :=
  let buf :=
    match ev.id with
    | some s => if s.isEmpty then buf else { buf with id := some s }
    | none => buf
  let buf :=
    match ev.name with
    | some s => if s.isEmpty then buf else { buf with name := some s }
    | none => buf
  match ev.args with
  | some s => if s.isEmpty then buf else { buf with args := buf.args ++ s }
  | none => buf

/-- The `tool_call` branch of `processStreamingResponse`
(`src/provider.ts` lines 1239–1264): whitespace hint, completed-index
guard, buffer create-or-update, then eager emission attempt. -/
def processToolCallEvent (st : TurnState) (ev : ToolCallEvent) :
    TurnState × List Part :=
  let hinted :=
    !st.emittedBeginToolCallsHint && st.hasEmittedAssistantText
  let hintParts := if hinted then [Part.text " "] else []
  let st := if hinted then { st with emittedBeginToolCallsHint := true } else st
  if ev.index ∈ st.completedToolCallIndices then (st, hintParts)
  else
    let buf := applyDeltaToBuffer ((mapGet st.toolCallBuffers ev.index).getD {}) ev
    let st := { st with toolCallBuffers := mapSet st.toolCallBuffers ev.index buf }
    let (st, parts) := tryEmitBufferedToolCall st ev.index
    (st, hintParts ++ parts)

/-- The buffer map after the create-or-update step of one `tool_call`
event (abbreviation for the update performed inside
`processToolCallEvent`). -/
def updatedBuffers (st : TurnState) (d : ToolCallEvent) :
    List (Nat × ToolCallBuffer) :=
  mapSet st.toolCallBuffers d.index
    (applyDeltaToBuffer ((mapGet st.toolCallBuffers d.index).getD {}) d)

/-- Feed a list of `tool_call` events to the reconstructor, collecting all
reported parts in order. -/
def runDeltas (st : TurnState) : List ToolCallEvent → TurnState × List Part
  | [] => (st, [])
  | d :: rest =>
    let (st1, ps1) := processToolCallEvent st d
    let (st2, ps2) := runDeltas st1 rest
    (st2, ps1 ++ ps2)

/-- The buffer obtained by folding a delta sequence into an empty buffer. -/
def accumBuffer (ds : List ToolCallEvent) : ToolCallBuffer :=
  ds.foldl applyDeltaToBuffer {}

/-- A buffer is ready to flush when it has a truthy name and its
accumulated arguments parse as a JSON object. -/
def bufferFlushable (b : ToolCallBuffer) : Bool :=
  (match b.name with
   | some n => !n.isEmpty
   | none => false) && (tryParseJSONObject b.args).isSome

/-- Number of tool-call parts in a report list. -/
def countToolCalls (ps : List Part) : Nat :=
  (ps.filter fun p =>
    match p with
    | .toolCall _ _ _ => true
    | _ => false).length

/-- Loop body of `flushToolCallBuffers`, iterating over the snapshot
`Array.from(this._toolCallBuffers.entries())`. -/
def flushLoop (entries : List (Nat × ToolCallBuffer)) (st : TurnState)
    (throwOnInvalid : Bool) (acc : List Part) :
    Except String (TurnState × List Part) :=
  match entries with
  | [] => .ok (st, acc)
  | (idx, buf) :: rest =>
    match tryParseJSONObject buf.args with
    | none =>
      if throwOnInvalid then .error "Invalid JSON for tool call"
      else flushLoop rest st throwOnInvalid acc  -- drop silently
    | some v =>
      let name := buf.name.getD "unknown_tool"
      let st := { st with
        emittedTextToolCallKeys :=
          setAdd st.emittedTextToolCallKeys (name ++ ":" ++ jsonStringify v),
        toolCallBuffers := mapDelete st.toolCallBuffers idx,
        completedToolCallIndices := setAdd st.completedToolCallIndices idx }
      flushLoop rest st throwOnInvalid (acc ++ [Part.toolCall buf.id name v])

/-- `flushToolCallBuffers` (`src/provider.ts`): flush all buffered tool
calls; with `throwOnInvalid` an unparseable buffer raises
`Invalid JSON for tool call`, otherwise it is skipped. -/
def flushToolCallBuffers (st : TurnState) (throwOnInvalid : Bool) :
    Except String (TurnState × List Part) :=
  if st.toolCallBuffers.isEmpty then .ok (st, [])
  else flushLoop st.toolCallBuffers st throwOnInvalid []

/-- The part (if any) that a silent flush emits for one buffer entry: a
tool call exactly when the accumulated arguments parse as a JSON object.
-/
def flushEmitOf (e : Nat × ToolCallBuffer) : Option Part :=
  (tryParseJSONObject e.2.args).map
    (fun v => Part.toolCall e.2.id (e.2.name.getD "unknown_tool") v)

/-- `emitTextToolCallIfValid` (`src/provider.ts`): emit an inline
text-channel tool call when its arguments parse as a JSON object, with
`(name, index)` identity dedup when an index is present and
`(name, canonical-arguments)` dedup otherwise.  Returns the updated state,
the boolean result, and the reported parts. -/
def emitTextToolCallIfValid (st : TurnState) (call : ActiveTextToolCall)
    (argText : String) : TurnState × Bool × List Part :=
  let name := call.name.getD "unknown_tool"
  match tryParseJSONObject argText with
  | none => (st, false, [])
  | some parsed =>
    let canonical := jsonStringify parsed
    let key := name ++ ":" ++ canonical
    match call.index with
    | some idx =>
      let idKey := name ++ ":" ++ toString idx
      if idKey ∈ st.emittedTextToolCallIds then (st, false, [])
      else
        let st := { st with
          emittedTextToolCallIds := setAdd st.emittedTextToolCallIds idKey }
        let st := { st with
          emittedTextToolCallKeys := setAdd st.emittedTextToolCallKeys key }
        (st, true, [Part.toolCall none name parsed])
    | none =>
      if key ∈ st.emittedTextToolCallKeys then (st, false, [])
      else
        let st := { st with
          emittedTextToolCallKeys := setAdd st.emittedTextToolCallKeys key }
        (st, true, [Part.toolCall none name parsed])

/-- `flushActiveTextToolCall` (`src/provider.ts`): at end of turn, emit the
in-progress inline call only if its buffer already parses; otherwise leave
it untouched (the early return does not clear `_textToolActive`). -/
def flushActiveTextToolCall (st : TurnState) : TurnState × List Part :=
  match st.textToolActive with
  | none => (st, [])
  | some call =>
    match tryParseJSONObject call.argBuffer with
    | none => (st, [])
    | some _ =>
      let (st, _, parts) := emitTextToolCallIfValid st call call.argBuffer
      ({ st with textToolActive := none }, parts)

/-- The `finish` branch of `processStreamingResponse`: on reason
`tool_calls` or `stop`, force-flush with `throwOnInvalid`. -/
def handleFinish (st : TurnState) (reason : String) :
    Except String (TurnState × List Part) :=
  if reason = "tool_calls" ∨ reason = "stop" then flushToolCallBuffers st true
  else .ok (st, [])

/-- The `done` branch of `processStreamingResponse`: silent flush of the
delta-channel buffers, then of the inline text channel.  The `.error`
branch is unreachable (`flushToolCallBuffers _ false` never throws). -/
def handleDone (st : TurnState) : TurnState × List Part :=
  match flushToolCallBuffers st false with
  | .ok (st, ps) =>
    let (st, ps2) := flushActiveTextToolCall st
    (st, ps ++ ps2)
  | .error _ => (st, [])

/-! ## Inline tool-call tokenizer (`processTextContent`, `src/provider.ts`) -/

/-- `<|tool_call_begin|>` -/
def beginTok : String := "<|tool_call_begin|>"

/-- `<|tool_call_argument_begin|>` -/
def argBeginTok : String := "<|tool_call_argument_begin|>"

/-- `<|tool_call_end|>` -/
def endTok : String := "<|tool_call_end|>"

/-- `String.indexOf`: position of the first occurrence of `pat`, or `none`. -/
def findSubstr (pat : List Char) : List Char → Option Nat
  | [] => if pat.isEmpty then some 0 else none
  | c :: cs =>
    if pat.isPrefixOf (c :: cs) then some 0
    else (findSubstr pat cs).map (· + 1)

/-- Character class `[a-zA-Z0-9_-]` of the section-token regex. -/
def isSectionClassChar (c : Char) : Bool :=
  ('a' ≤ c && c ≤ 'z') || ('A' ≤ c && c ≤ 'Z') || ('0' ≤ c && c ≤ '9') ||
    c == '_' || c == '-'

/-- Match `/<\|[a-zA-Z0-9_-]+_section_(?:begin|end)\|>/` at the head of the
list, returning the length of the match. -/
def matchSectionToken (cs : List Char) : Option Nat :=
  match cs with
  | '<' :: '|' :: rest =>
    let run := rest.takeWhile isSectionClassChar
    match rest.drop run.length with
    | '|' :: '>' :: _ =>
      if ("_section_begin".data.isSuffixOf run ∧ "_section_begin".length < run.length)
          ∨ ("_section_end".data.isSuffixOf run ∧ "_section_end".length < run.length) then
        some (run.length + 4)
      else none
    | _ => none
  | _ => none

lemma matchSectionToken_pos {cs : List Char} {k : Nat}
    (h : matchSectionToken cs = some k) : 0 < k := by
  unfold matchSectionToken at h
  split at h <;> try simp_all
  split at h <;> try simp_all
  obtain ⟨-, hk⟩ := h
  omega

/-- First regex pass of `stripControlTokens`: delete every section-marker
token.  A matched token has positive length (`matchSectionToken_pos`), so
fuel equal to the input length suffices and the out-of-fuel branch is
unreachable. -/
def stripSectionTokensGo : Nat → List Char → List Char
  | _, [] => []
  | 0, _ :: _ => []
  | fuel + 1, c :: cs' =>
    match matchSectionToken (c :: cs') with
    | some k => stripSectionTokensGo fuel ((c :: cs').drop k)
    | none => c :: stripSectionTokensGo fuel cs'

/-- First regex pass of `stripControlTokens` at full fuel. -/
def stripSectionTokens (cs : List Char) : List Char :=
  stripSectionTokensGo cs.length cs

/-- Match one of the four `<|tool_call_…|>` literals at the head of the
list (the `(?:argument_)?` alternatives are disjoint, so order is
irrelevant). -/
def matchToolCallToken (cs : List Char) : Option Nat :=
  if argBeginTok.data.isPrefixOf cs then some argBeginTok.length
  else if "<|tool_call_argument_end|>".data.isPrefixOf cs then some 26
  else if beginTok.data.isPrefixOf cs then some beginTok.length
  else if endTok.data.isPrefixOf cs then some endTok.length
  else none

lemma matchToolCallToken_pos {cs : List Char} {k : Nat}
    (h : matchToolCallToken cs = some k) : 0 < k := by
  unfold matchToolCallToken at h
  have h1 : argBeginTok.length = 28 := rfl
  have h2 : beginTok.length = 19 := rfl
  have h3 : endTok.length = 17 := rfl
  repeat' split at h
  all_goals simp_all
  all_goals omega

/-- Second regex pass of `stripControlTokens`: delete every
`<|tool_call_(argument_)?(begin|end)|>` token.  A matched token has
positive length (`matchToolCallToken_pos`), so fuel equal to the input
length suffices. -/
def stripToolCallTokensGo : Nat → List Char → List Char
  | _, [] => []
  | 0, _ :: _ => []
  | fuel + 1, c :: cs' =>
    match matchToolCallToken (c :: cs') with
    | some k => stripToolCallTokensGo fuel ((c :: cs').drop k)
    | none => c :: stripToolCallTokensGo fuel cs'

/-- Second regex pass of `stripControlTokens` at full fuel. -/
def stripToolCallTokens (cs : List Char) : List Char :=
  stripToolCallTokensGo cs.length cs

/-- `stripControlTokens` (`src/provider.ts`): the two chained
`String.replace` passes. -/
def stripControlTokens (s : String) : String :=
  String.mk (stripToolCallTokens (stripSectionTokens s.data))

/-- The longest `k` with `0 < k < tok.length` such that the data ends with
the first `k` characters of `tok` (the `longestPartialPrefix` closure in
`processTextContent`); `0` if there is none. -/
def longestHeldPrefixLen (data tok : List Char) : Nat :=
  go (min (tok.length - 1) (data.length - 1))
where
  go : Nat → Nat
    | 0 => 0
    | k + 1 =>
      if (tok.take (k + 1)).isSuffixOf data then k + 1 else go k

/-- JavaScript `String.trim` whitespace (the characters relevant here). -/
def isJsTrimWs (c : Char) : Bool :=
  c == ' ' || c == '\t' || c == '\n' || c == '\r' || c == '\x0b' || c == '\x0c'

/-- JavaScript `String.trim`. -/
def jsTrim (cs : List Char) : List Char :=
  ((cs.dropWhile isJsTrimWs).reverse.dropWhile isJsTrimWs).reverse

/-- The header regex `/^([A-Za-z0-9_\-.]+)(?::(\d+))?/` character class. -/
def isHeaderClassChar (c : Char) : Bool :=
  ('a' ≤ c && c ≤ 'z') || ('A' ≤ c && c ≤ 'Z') || ('0' ≤ c && c ≤ '9') ||
    c == '_' || c == '-' || c == '.'

/-- Apply the header regex: `name` from group 1, `index` from the optional
`:digits` group 2 (both `undefined` when the regex does not match). -/
def parseHeader (header : List Char) : Option String × Option Nat :=
  let run := header.takeWhile isHeaderClassChar
  if run.isEmpty then (none, none)
  else
    match header.drop run.length with
    | ':' :: cs =>
      let ds := cs.takeWhile isDig
      if ds.isEmpty then (some (String.mk run), none)
      else (some (String.mk run), some (digitsToNat ds))
    | _ => (some (String.mk run), none)

/-- The `while (data.length > 0)` loop of `processTextContent`.  Returns
the updated state, the accumulated visible characters, the reported parts,
the `emittedAny` flag, and the value of the local `data` at loop exit
(always `[]`: every `break` first sets `data = ""`).  Every iteration
consumes at least one character of `data`, so fuel exceeding the data
length suffices and the out-of-fuel branch is unreachable. -/
def scanTextLoop : Nat → TurnState → List Char → List Char → List Part →
    Bool → TurnState × List Char × List Part × Bool × List Char
  | _, st, [], visible, parts, emittedAny => (st, visible, parts, emittedAny, [])
  | 0, st, _ :: _, visible, parts, emittedAny => (st, visible, parts, emittedAny, [])
  | fuel + 1, st, data, visible, parts, emittedAny =>
    match st.textToolActive with
    | none =>
      match findSubstr beginTok.data data with
      | none =>
        let p := longestHeldPrefixLen data beginTok.data
        if 0 < p then
          let visChunk := data.take (data.length - p)
          let visible :=
            if visChunk.isEmpty then visible
            else visible ++ (stripControlTokens (String.mk visChunk)).data
          let st := { st with
            textToolParserBuffer := String.mk (data.drop (data.length - p)) }
          (st, visible, parts, emittedAny, [])
        else
          (st, visible ++ (stripControlTokens (String.mk data)).data, parts,
            emittedAny, [])
      | some b =>
        let pre := data.take b
        let visible :=
          if pre.isEmpty then visible
          else visible ++ (stripControlTokens (String.mk pre)).data
        let data₁ := data.drop (b + beginTok.length)
        let a := findSubstr argBeginTok.data data₁
        let e := findSubstr endTok.data data₁
        let useArg : Bool :=
          match a, e with
          | some ai, none => true
          | some ai, some eIdx => decide (ai < eIdx)
          | none, _ => false
        match ha : a, he : e with
        | some ai, ei =>
          if useArg then
            -- delimiter is ARG_BEGIN
            let header := jsTrim (data₁.take ai)
            let nameIdx := parseHeader header
            let newAct : ActiveTextToolCall :=
              { name := nameIdx.1, index := nameIdx.2, argBuffer := "", emitted := false }
            let st := { st with textToolActive := some newAct }
            scanTextLoop fuel st (data₁.drop (ai + argBeginTok.length)) visible
              parts emittedAny
          else
            -- delimiter is END (`e` is necessarily `some` when `useArg` is false)
            let eIdx := ei.getD 0
            let header := jsTrim (data₁.take eIdx)
            let nameIdx := parseHeader header
            let call : ActiveTextToolCall :=
              { name := nameIdx.1, index := nameIdx.2, argBuffer := "", emitted := false }
            let data₂ := data₁.drop (eIdx + endTok.length)
            let (st, did, ps) := emitTextToolCallIfValid st call "\x7b\x7d"
            let st := { st with textToolActive := none }
            scanTextLoop fuel st data₂ visible (parts ++ ps) (emittedAny || did)
        | none, some eIdx =>
          let header := jsTrim (data₁.take eIdx)
          let nameIdx := parseHeader header
          let call : ActiveTextToolCall :=
            { name := nameIdx.1, index := nameIdx.2, argBuffer := "", emitted := false }
          let data₂ := data₁.drop (eIdx + endTok.length)
          let (st, did, ps) := emitTextToolCallIfValid st call "\x7b\x7d"
          let st := { st with textToolActive := none }
          scanTextLoop fuel st data₂ visible (parts ++ ps) (emittedAny || did)
        | none, none =>
          -- incomplete header: keep for next chunk (re-add BEGIN)
          let st := { st with
            textToolParserBuffer := beginTok ++ String.mk data₁ }
          (st, visible, parts, emittedAny, [])
    | some act =>
      match findSubstr endTok.data data with
      | none =>
        let act := { act with argBuffer := act.argBuffer ++ String.mk data }
        if !act.emitted then
          let (st, did, ps) := emitTextToolCallIfValid st act act.argBuffer
          let act := if did then { act with emitted := true } else act
          let st := { st with textToolActive := some act }
          (st, visible, parts ++ ps, emittedAny || did, [])
        else
          let st := { st with textToolActive := some act }
          (st, visible, parts, emittedAny, [])
      | some e2 =>
        let act := { act with argBuffer := act.argBuffer ++ String.mk (data.take e2) }
        let data₂ := data.drop (e2 + endTok.length)
        if !act.emitted then
          let (st, did, ps) := emitTextToolCallIfValid st act act.argBuffer
          let st := { st with textToolActive := none }
          scanTextLoop fuel st data₂ visible (parts ++ ps) (emittedAny || did)
        else
          let st := { st with textToolActive := none }
          scanTextLoop fuel st data₂ visible parts emittedAny

/-- `processTextContent` (`src/provider.ts`): run the scanner on the held
buffer plus the new chunk, then report the visible text (if any) and store
the loop's final `data` — which is always empty — back into
`_textToolParserBuffer`, clobbering any buffer the loop saved. -/
def processTextContent (st : TurnState) (input : String) :
    TurnState × List Part × Bool × Bool :=
  let data := st.textToolParserBuffer.data ++ input.data
  let (st, visible, parts, emittedAny, dataExit) :=
    scanTextLoop (data.length + 1) st data [] [] false
  let (emittedText, emittedAny, parts) :=
    if !visible.isEmpty then
      (true, true, parts ++ [Part.text (String.mk visible)])
    else (false, emittedAny, parts)
  let st := { st with textToolParserBuffer := String.mk dataExit }
  (st, parts, emittedText, emittedAny)

/-! ## Stream-event parsers (`src/adapters.ts`)

JavaScript property access, truthiness and coercions are modelled by the
`js…` helpers below.  Tool-call indices are modelled as naturals: every
index the upstream protocols produce is a non-negative integral JSON
number; any other value is outside the modelled domain and mapped to 0. -/

/-- The protocol-neutral `StreamEventResult` union. -/
inductive StreamEventResult where
  | text (content : String)
  | toolCall (index : Nat) (id : Option String) (name : Option String)
      (args : Option String)
  | thinking (text : String) (id : Option String) (metadata : Option Json)
  | statefulMarker (marker : String)
  | finish (reason : String)
  | done
  | skip
  deriving Repr

/-- JavaScript `String.startsWith`. -/
def jsStartsWith (s pre : String) : Bool :=
  pre.data.isPrefixOf s.data

/-- Property lookup on a JSON object (`undefined` is `none`; a field that
is present with value `null` is `some .null`). -/
def jsGet (j : Json) (k : String) : Option Json :=
  match j with
  | .obj fields => (fields.find? (fun f => f.1 = k)).map (·.2)
  | _ => none

/-- Optional-chained property access `o?.k`: property access on a
primitive or on `null`/`undefined` yields `undefined`. -/
def jsGetO (o : Option Json) (k : String) : Option Json :=
  match o with
  | some j => jsGet j k
  | none => none

/-- JavaScript truthiness of a JSON value. -/
def jsTruthy : Json → Bool
  | .null => false
  | .bool b => b
  | .num m _ => !(m = 0)
  | .str s => !s.isEmpty
  | .arr _ => true
  | .obj _ => true

/-- Truthiness of a possibly-`undefined` value. -/
def jsTruthyO (o : Option Json) : Bool :=
  match o with
  | some j => jsTruthy j
  | none => false

/-- Nullish coalescing `a ?? b`. -/
def jsNullish (a b : Option Json) : Option Json :=
  match a with
  | some .null => b
  | some v => some v
  | none => b

/-- Extract a string-typed property (`typeof x === "string"`). -/
def jsStr (o : Option Json) : Option String :=
  match o with
  | some (.str s) => some s
  | _ => none

/-- `typeof x === "object"` (true for objects, arrays and `null`). -/
def jsIsObjectType : Json → Bool
  | .obj _ => true
  | .arr _ => true
  | .null => true
  | _ => false

mutual

/-- JavaScript `String(x)` conversion (arrays join with `,`, objects print
as `[object Object]`). -/
def jsToString : Json → String
  | .null => "null"
  | .bool true => "true"
  | .bool false => "false"
  | .num m e => stringifyNum m e
  | .str s => s
  | .arr es => jsToStringElems es
  | .obj _ => "[object Object]"

/-- Array elements of `String(x)`, comma-separated. -/
def jsToStringElems : List Json → String
  | [] => ""
  | [j] => jsToString j
  | j :: rest => jsToString j ++ "," ++ jsToStringElems rest

end

/-- `(x as number) ?? 0` for a tool-call index, restricted to the modelled
domain of non-negative integral numbers. -/
def jsIndexOrZero (o : Option Json) : Nat :=
  match o with
  | some (.num m e) => if 0 ≤ m ∧ e = 0 then m.toNat else 0
  | _ => 0

/-- JavaScript `String.trim`. -/
def jsTrimStr (s : String) : String := String.mk (jsTrim s.data)

/-- The trailing finish-reason check of the chat parser. -/
def chatParseFinish (choice : Json) : StreamEventResult :=
  match jsGet choice "finish_reason" with
  | some v =>
    if jsTruthy v then
      .finish (match v with
        | .str s => s
        | _ => jsToString v)
    else .skip
  | none => .skip

/-- `(parsed.choices as Record<string, unknown>[] | undefined)?.[0]`. -/
def chatChoice0 (parsed : Json) : Option Json :=
  (jsGet parsed "choices").bind (fun c =>
    match c with
    | .arr (x :: _) => some x
    | _ => none)

/-- The post-`JSON.parse` part of `ChatCompletionsAdapter.parseStreamEvent`
(`src/adapters.ts`): inspect the first choice's delta for reasoning
content, text content, tool calls (only element `[0]` of the array is
read), and a finish reason, in that order. -/
def chatParseJson (parsed : Json) : StreamEventResult :=
  match chatChoice0 parsed with
  | none => .skip
  | some choice =>
    if !jsTruthy choice then .skip
    else
      let deltaObj := jsGet choice "delta"
      let maybeThinking :=
        jsNullish (jsGetO (some choice) "reasoning_content")
          (jsGetO deltaObj "reasoning_content")
      let thinkingResult : Option StreamEventResult :=
        match maybeThinking with
        | none => none
        | some mt =>
          let (text, id, metadata) :=
            if jsTruthy mt ∧ jsIsObjectType mt then
              ((jsStr (jsGet mt "text")).getD "",
               jsStr (jsGet mt "id"),
               jsGet mt "metadata")
            else
              match mt with
              | .str s => (s, none, none)
              | _ => ("", none, none)
          if !text.isEmpty then some (.thinking text id metadata) else none
      match thinkingResult with
      | some ev => ev
      | none =>
        if jsTruthyO (jsGetO deltaObj "content") then
          .text (jsToString (((jsGetO deltaObj "content")).getD .null))
        else if jsTruthyO (jsGetO deltaObj "tool_calls") then
          match jsGetO deltaObj "tool_calls" with
          | some (.arr (tc :: _)) =>
            let func := jsGetO (some tc) "function"
            .toolCall (jsIndexOrZero (jsGetO (some tc) "index"))
              (jsStr (jsGetO (some tc) "id"))
              (jsStr (jsGetO func "name"))
              (jsStr (jsGetO func "arguments"))
          | _ => chatParseFinish choice
        else chatParseFinish choice

/-- `ChatCompletionsAdapter.parseStreamEvent` (`src/adapters.ts`): one
`StreamEventResult` per input line, never raising. -/
def chatParseStreamEvent (line : String) : StreamEventResult :=
  if !(jsStartsWith line "data:") then .skip
  else
    let data := jsTrimStr (line.drop 5)
    if data = "[DONE]" then .done
    else
      match jsonParse data with
      | none => .skip
      | some parsed => chatParseJson parsed

/-- Per-connection state of `ResponsesAdapter`. -/
structure RespParserState where
  toolCallIndexById : List (String × Nat) := []
  nextToolCallIndex : Nat := 0
  sawOutputTextDelta : Bool := false
  lastSseEventType : Option String := none
  emittedTextItemKeys : List String := []
  deriving Repr, DecidableEq

/-- `ResponsesAdapter.getToolCallIndex`: resolve a call id to a
stream-local sequential index (first sight allocates the next index). -/
def getToolCallIndex (st : RespParserState) (callId : Option String) :
    RespParserState × Nat :=
  match callId with
  | none => (st, 0)
  | some cid =>
    if cid.isEmpty then (st, 0)  -- `if (!callId)` is also true for ""
    else
      match (st.toolCallIndexById.find? (fun f => f.1 = cid)).map (·.2) with
      | some idx => (st, idx)
      | none =>
        ({ st with
            toolCallIndexById := st.toolCallIndexById ++ [(cid, st.nextToolCallIndex)],
            nextToolCallIndex := st.nextToolCallIndex + 1 },
          st.nextToolCallIndex)

/-- Argument normalisation used by the Responses parser: a string is taken
verbatim, a (truthy) object is re-serialised with `JSON.stringify`,
anything else is `undefined`. -/
def respArgsOf (argsRaw : Option Json) : Option String :=
  match argsRaw with
  | some (.str s) => some s
  | some v => if jsTruthy v ∧ jsIsObjectType v then some (jsonStringify v) else none
  | none => none

/-- The non-streaming `output`-array fallback of
`ResponsesAdapter.parseStreamEvent`. -/
def respParseOutputFallback (st : RespParserState) (parsed : Json) :
    RespParserState × StreamEventResult :=
  match jsGet parsed "output" with
  | some (.arr items) =>
    match items.getLast? with
    | none => (st, .skip)
    | some lastItem =>
      let itemType := jsStr (jsGet lastItem "type")
      if !st.sawOutputTextDelta ∧ itemType = some "output_text"
          ∧ jsTruthyO (jsGet lastItem "text") then
        match jsStr (jsGet lastItem "text") with
        | some t => (st, .text t)
        | none => (st, .skip)
      else if !st.sawOutputTextDelta ∧ itemType = some "message" then
        let t :=
          match jsGet lastItem "content" with
          | some (.arr content) =>
            (content.find? (fun c =>
              jsStr (jsGet c "type") = some "output_text"
                ∧ jsTruthyO (jsGet c "text"))).bind (fun c => jsStr (jsGet c "text"))
          | _ => none
        match t with
        | some t' => (st, .text t')
        | none => (st, .skip)
      else if itemType = some "function_call" then
        let callId := jsStr (jsGet lastItem "call_id")
        let (st, idx) := getToolCallIndex st callId
        (st, .toolCall idx callId (jsStr (jsGet lastItem "name"))
          (jsStr (jsGet lastItem "arguments")))
      else (st, .skip)
  | _ => (st, .skip)

/-- Dedup-and-emit for a text item carried by an `output_item` event
(deduplicated per item key so delta and snapshot events do not both
emit it). -/
def respEmitTextItem (st : RespParserState) (t : String) (key : Option String) :
    RespParserState × StreamEventResult :=
  match key with
  | some k =>
    if k ∈ st.emittedTextItemKeys then (st, .skip)
    else ({ st with emittedTextItemKeys := st.emittedTextItemKeys ++ [k] }, .text t)
  | none => (st, .text t)

/-- The post-`JSON.parse` part of `ResponsesAdapter.parseStreamEvent`:
dispatch on the resolved event type (SSE marker wins unless it is the
default `"message"`). -/
def respParseJson (st : RespParserState) (parsed : Json) :
    RespParserState × StreamEventResult :=
  let jsonType := jsStr (jsGet parsed "type")
  let eventType :=
    match st.lastSseEventType with
    | some s => if s ≠ "message" then some s else jsonType
    | none => jsonType
  if eventType = some "response.completed" then
    let resp := jsGet parsed "response"
    let ridA :=
      match resp with
      | some r =>
        if jsTruthy r ∧ jsIsObjectType r then jsStr (jsGet r "id") else none
      | none => none
    let rid :=
      match ridA with
      | some s => some s
      | none => jsStr (jsGet parsed "id")
    match rid with
    | some r => if r.isEmpty then (st, .done) else (st, .statefulMarker r)
    | none => (st, .done)
  else if eventType = some "response.done" then (st, .done)
  else if eventType = some "response.output_text.delta" then
    let delta := jsGet parsed "delta"
    let text :=
      match jsStr (jsGetO delta "text") with
      | some s => some s
      | none => jsStr delta
    match text with
    | some t =>
      if t.isEmpty then respParseOutputFallback st parsed
      else ({ st with sawOutputTextDelta := true }, .text t)
    | none => respParseOutputFallback st parsed
  else if eventType = some "response.output_text.done" then
    if st.sawOutputTextDelta then (st, .skip)
    else
      let delta := jsGet parsed "delta"
      let text :=
        match jsStr (jsGetO delta "text") with
        | some s => some s
        | none =>
          match jsStr delta with
          | some s => some s
          | none => jsStr (jsGet parsed "text")
      match text with
      | some t =>
        if t.isEmpty then respParseOutputFallback st parsed else (st, .text t)
      | none => respParseOutputFallback st parsed
  else if eventType = some "response.reasoning_summary.delta"
      ∨ eventType = some "response.reasoning_summary.done"
      ∨ eventType = some "response.reasoning.delta"
      ∨ eventType = some "response.reasoning.done" then
    let delta :=
      jsNullish (jsGet parsed "delta")
        (jsNullish (jsGet parsed "reasoning_summary")
          (jsNullish (jsGet parsed "reasoning") (jsGet parsed "summary")))
    let d : Option Json :=
      match delta with
      | some v => if jsTruthy v ∧ jsIsObjectType v then some v else none
      | none => none
    let text :=
      match jsStr (jsGetO d "text") with
      | some s => some s
      | none =>
        match jsStr delta with
        | some s => some s
        | none => jsStr (jsGet parsed "text")
    let id :=
      match jsStr (jsGetO d "id") with
      | some s => some s
      | none =>
        match jsStr (jsGet parsed "item_id") with
        | some s => some s
        | none => jsStr (jsGet parsed "id")
    match text with
    | some t =>
      if t.isEmpty then respParseOutputFallback st parsed
      else (st, .thinking t id none)
    | none => respParseOutputFallback st parsed
  else if eventType = some "response.function_call.delta"
      ∨ eventType = some "response.function_call_arguments.delta" then
    let delta := jsGet parsed "delta"
    let d : Option Json :=
      match delta with
      | some v => if jsTruthy v ∧ jsIsObjectType v then some v else none
      | none => none
    let callId :=
      match jsStr (jsGetO d "call_id") with
      | some s => some s
      | none => jsStr (jsGet parsed "call_id")
    let argsRaw :=
      jsNullish (jsGetO d "arguments")
        (jsNullish (jsGetO d "delta")
          (match delta with
           | some (.str s) => some (.str s)
           | _ => none))
    let args := respArgsOf argsRaw
    let (st, idx) := getToolCallIndex st callId
    (st, .toolCall idx callId (jsStr (jsGetO d "name")) args)
  else if eventType = some "response.output_item.added"
      ∨ eventType = some "response.output_item.done" then
    let item := jsNullish (jsGet parsed "item") (jsGet parsed "output_item")
    match item with
    | some it =>
      if jsTruthy it ∧ jsIsObjectType it then
        if jsStr (jsGet it "type") = some "function_call" then
          let callId := jsStr (jsGet it "call_id")
          let args := respArgsOf (jsGet it "arguments")
          let (st, idx) := getToolCallIndex st callId
          (st, .toolCall idx callId (jsStr (jsGet it "name")) args)
        else if !st.sawOutputTextDelta then
          let key :=
            match jsStr (jsGet it "id") with
            | some s => some s
            | none =>
              match jsGet parsed "output_index" with
              | some (.num m e) =>
                if 0 ≤ m ∧ e = 0 then some ("output_index:" ++ toString m.toNat)
                else none
              | _ => none
          if jsStr (jsGet it "type") = some "output_text" then
            match jsStr (jsGet it "text") with
            | some t =>
              if t.isEmpty then respParseOutputFallback st parsed
              else respEmitTextItem st t key
            | none => respParseOutputFallback st parsed
          else if jsStr (jsGet it "type") = some "message" then
            let t :=
              match jsGet it "content" with
              | some (.arr content) =>
                (content.find? (fun c =>
                  jsTruthy c ∧ jsIsObjectType c
                    ∧ jsStr (jsGet c "type") = some "output_text"
                    ∧ jsTruthyO (jsGet c "text"))).bind
                  (fun c => jsStr (jsGet c "text"))
              | _ => none
            match t with
            | some t' => respEmitTextItem st t' key
            | none => respParseOutputFallback st parsed
          else respParseOutputFallback st parsed
        else respParseOutputFallback st parsed
      else respParseOutputFallback st parsed
    | none => respParseOutputFallback st parsed
  else respParseOutputFallback st parsed

/-- `ResponsesAdapter.parseStreamEvent` (`src/adapters.ts`): an `event:`
line is remembered as the pending SSE event type and skipped; other
non-data lines are skipped; `[DONE]` yields `done`; unparseable JSON is
skipped; otherwise dispatch on the resolved event type. -/
def respParseStreamEvent (st : RespParserState) (line : String) :
    RespParserState × StreamEventResult :=
  if jsStartsWith line "event:" then
    let ev := jsTrimStr (line.drop 6)
    ({ st with lastSseEventType := some (if ev.isEmpty then "message" else ev) },
      .skip)
  else if !(jsStartsWith line "data:") then (st, .skip)
  else
    let data := jsTrimStr (line.drop 5)
    if data = "[DONE]" then (st, .done)
    else
      match jsonParse data with
      | none => (st, .skip)
      | some parsed => respParseJson st parsed

/-! ## Request builders (`src/adapters.ts`)

Endpoint normalisation for both adapters, and the parts of
`ResponsesAdapter.buildRequest` that the stateful-continuation claims
depend on.  Tool declarations and per-request sampling options are not
modelled: no claim mentions them, and their converters
(`convertTools` / `convertToolsForResponses`) live in `src/utils.ts`,
which is not among the provided sources. -/

/-- JavaScript `String.endsWith`. -/
def jsEndsWith (s suffix : String) : Bool :=
  suffix.data.isSuffixOf s.data

/-- JavaScript `String.includes`. -/
def jsIncludes (s t : String) : Bool :=
  (findSubstr t.data s.data).isSome

/-- `endpoint.replace(/\/$/, "")`: drop one trailing slash. -/
def stripTrailingSlash (s : String) : String :=
  if jsEndsWith s "/" then String.mk s.data.dropLast else s

/-- Endpoint normalisation of `ChatCompletionsAdapter.buildRequest`. -/
def chatCompletionsEndpoint (baseUrl : String) : String :=
  if jsEndsWith baseUrl "/chat/completions" then baseUrl
  else
    let e := stripTrailingSlash baseUrl
    if jsEndsWith e "/v1" then e ++ "/chat/completions"
    else if !(jsIncludes e "/v1") then e ++ "/v1/chat/completions"
    else e ++ "/chat/completions"

/-- Endpoint normalisation of `ResponsesAdapter.buildRequest`. -/
def responsesEndpoint (baseUrl : String) : String :=
  if jsEndsWith baseUrl "/responses" then baseUrl
  else
    let e := stripTrailingSlash baseUrl
    if jsEndsWith e "/v1" then e ++ "/responses"
    else if !(jsIncludes e "/v1") then e ++ "/v1/responses"
    else e ++ "/responses"

/-- Host chat-message roles (`vscode.LanguageModelChatMessageRole`; any
role other than `User`/`Assistant` is mapped to system by the source). -/
inductive ChatRole where
  | user
  | assistant
  | system
  deriving Repr, DecidableEq

/-- A sub-part of a tool result (text pieces — including plain strings and
stringified unknowns — and mime-typed data parts). -/
inductive ToolResultPiece where
  | text (s : String)
  | data (mime : String) (payload : String)
  deriving Repr, DecidableEq

/-- A part of a host chat message.  For `data` parts the payload is the
byte content, given as the string it decodes to. -/
inductive MsgPart where
  | text (s : String)
  | data (mime : String) (payload : String)
  | toolCall (callId : String) (name : String) (input : Json)
  | toolResult (callId : String) (content : List ToolResultPiece)
  deriving Repr

/-- A host chat message. -/
structure ChatMessage where
  role : ChatRole
  parts : List MsgPart
  deriving Repr

/-- The fields of `OpenAICustomModelConfig` read by
`ResponsesAdapter.buildRequest`. -/
structure ModelConfig where
  id : String
  modelName : String
  baseUrl : String
  maxOutputTokens : Nat
  instructions : Option String := none
  supportsSystemRole : Option Bool := none
  supportsStatefulResponses : Option Bool := none
  reasoningEffort : Option String := none
  reasoningSummary : Option String := none
  truncation : Option String := none
  textVerbosity : Option String := none
  parallelToolCalls : Option Bool := none
  deriving Repr

/-- A Responses-API content item. -/
inductive RespContentItem where
  | inputText (text : String)
  | outputText (text : String)
  | inputImage (imageUrl : String)
  deriving Repr, DecidableEq

/-- A Responses-API input item. -/
inductive RespItem where
  | message (role : String) (content : List RespContentItem)
  | functionCall (callId : String) (name : String) (arguments : String)
  | functionCallOutput (callId : String) (output : String)
  deriving Repr, DecidableEq

/-- The base64 alphabet. -/
def b64Char (n : Nat) : Char :=
  ("ABCDEFGHIJKLMNOPQRSTUVWXYZabcdefghijklmnopqrstuvwxyz0123456789+/".data).getD n 'A'

/-- Base64-encode a byte list (`Buffer.toString("base64")`). -/
def base64Bytes : List Nat → List Char
  | [] => []
  | [a] =>
    [b64Char (a / 4), b64Char (a % 4 * 16), '=', '=']
  | [a, b] =>
    [b64Char (a / 4), b64Char (a % 4 * 16 + b / 16), b64Char (b % 16 * 4), '=']
  | a :: b :: c :: rest =>
    b64Char (a / 4) :: b64Char (a % 4 * 16 + b / 16) ::
      b64Char (b % 16 * 4 + c / 64) :: b64Char (c % 64) :: base64Bytes rest

/-- Base64 of a string's UTF-8 bytes. -/
def base64OfString (s : String) : String :=
  String.mk (base64Bytes (s.toUTF8.toList.map (·.toNat)))

/-- `ResponsesAdapter.tryDataPartToDataUrl`: image data parts become
inline base64 data URLs; non-image mime types yield `undefined`. -/
def tryDataPartToDataUrl (mime : String) (payload : String) : Option String :=
  if !(jsStartsWith mime "image/") then none
  else some ("data:" ++ mime ++ ";base64," ++ base64OfString payload)

/-- Decode one `stateful_marker` data part against the current model id:
the payload is `modelId ++ "\" ++ responseId` (single backslash), the
separator must not be at position 0, both halves must be non-empty, and
the model id must match. -/
def markerOfPart (modelId : String) : MsgPart → Option String
  | .data mime payload =>
    if mime = "stateful_marker" then
      match findSubstr ['\\'] payload.data with
      | some sep =>
        if sep = 0 then none  -- `if (sep <= 0) continue`
        else
          let mid := String.mk (payload.data.take sep)
          let marker := String.mk (payload.data.drop (sep + 1))
          if mid.isEmpty ∨ marker.isEmpty then none
          else if mid ≠ modelId then none
          else some marker
      | none => none
    else none
  | _ => none

/-- Last matching marker within one message (parts scanned in order). -/
def lastMarkerIn (modelId : String) (msg : ChatMessage) : Option String :=
  msg.parts.foldl
    (fun acc p =>
      match markerOfPart modelId p with
      | some m => some m
      | none => acc) none

/-- Forward scan of `extractPreviousResponseId`, keeping the last match. -/
def extractPrevGo (modelId : String) :
    List ChatMessage → Nat → Option (String × Nat) → Option (String × Nat)
  | [], _, acc => acc
  | msg :: rest, i, acc =>
    let acc :=
      match lastMarkerIn modelId msg with
      | some m => some (m, i + 1)
      | none => acc
    extractPrevGo modelId rest (i + 1) acc

/-- `ResponsesAdapter.extractPreviousResponseId` (`src/adapters.ts`):
the most recent continuation marker whose embedded model id matches,
yielding `(previous_response_id, sliceFromMessageIndex)`. -/
def extractPreviousResponseId (messages : List ChatMessage) (modelId : String) :
    Option (String × Nat) :=
  extractPrevGo modelId messages 0 none

/-- `ResponsesAdapter.collectToolResultTextAndImages`: concatenated text
plus the image data URLs. -/
def collectToolResultTextAndImages (content : List ToolResultPiece) :
    String × List String :=
  content.foldl
    (fun (acc : String × List String) c =>
      match c with
      | .text s => (acc.1 ++ s, acc.2)
      | .data mime payload =>
        match tryDataPartToDataUrl mime payload with
        | some url => (acc.1, acc.2 ++ [url])
        | none => acc)
    ("", [])

/-- Per-message accumulator of `convertMessagesToItems`. -/
structure MsgAcc where
  pendingText : String := ""
  contentItems : List RespContentItem := []
  toolCalls : List RespItem := []
  toolResults : List RespItem := []

/-- One iteration of the part loop in `convertMessagesToItems`.  The
`Date.now()`/`Math.random()` call id generated for an absent tool-call id
is modelled by the fixed placeholder `"call_generated"`. -/
def convertPartStep (isAssistant : Bool) (acc : MsgAcc) (part : MsgPart) :
    MsgAcc :=
  match part with
  | .text s => { acc with pendingText := acc.pendingText ++ s }
  | .data mime payload =>
    if mime = "stateful_marker" then acc
    else
      match tryDataPartToDataUrl mime payload with
      | none => acc
      | some url =>
        if isAssistant then acc  -- only user/system carry input_image items
        else
          let acc :=
            if !acc.pendingText.isEmpty then
              { acc with
                contentItems := acc.contentItems ++
                  [RespContentItem.inputText acc.pendingText],
                pendingText := "" }
            else acc
          { acc with contentItems := acc.contentItems ++
              [RespContentItem.inputImage url] }
  | .toolCall callId name input =>
    let cid := if callId.isEmpty then "call_generated" else callId
    { acc with
      toolCalls := acc.toolCalls ++
        [RespItem.functionCall cid name (jsonStringify input)] }
  | .toolResult callId content =>
    let collected := collectToolResultTextAndImages content
    let acc := { acc with
      toolResults := acc.toolResults ++
        [RespItem.functionCallOutput callId collected.1] }
    { acc with
      toolResults := acc.toolResults ++ collected.2.map (fun url =>
        RespItem.message "user"
          [RespContentItem.inputText "Image associated with tool output.",
           RespContentItem.inputImage url]) }

/-- Normalise an assistant content item to `output_text` (assistant
messages never carry images, so the image case is unreachable). -/
def toOutputText : RespContentItem → RespContentItem
  | .outputText t => .outputText t
  | .inputText t => .outputText t
  | .inputImage _ => .outputText ""

/-- Conversion of one host message to Responses items: text message item
(with system downgrade and `[System]:` prefix when the backend rejects the
system role), then function-call items, then function-call-output items
(plus the image-workaround user messages). -/
def convertOneMessage (supportsSystem : Bool) (msg : ChatMessage) :
    List RespItem :=
  let isAssistant := msg.role = ChatRole.assistant
  let acc := msg.parts.foldl (convertPartStep isAssistant) {}
  let role0 : String :=
    match msg.role with
    | .assistant => "assistant"
    | .user => "user"
    | .system => "system"
  let (role, nsp0) :=
    if role0 = "system" ∧ ¬supportsSystem then ("user", true) else (role0, false)
  let (contentItems, nsp) :=
    if !acc.pendingText.isEmpty then
      let (text, nsp') :=
        if nsp0 then ("[System]: " ++ acc.pendingText, false)
        else (acc.pendingText, nsp0)
      (acc.contentItems ++
        [if role = "assistant" then RespContentItem.outputText text
         else RespContentItem.inputText text], nsp')
    else (acc.contentItems, nsp0)
  let msgItems :=
    if !contentItems.isEmpty then
      let contentItems :=
        if nsp then RespContentItem.inputText "[System]:" :: contentItems
        else contentItems
      if role = "assistant" then
        [RespItem.message role (contentItems.map toOutputText)]
      else [RespItem.message role contentItems]
    else []
  msgItems ++ acc.toolCalls ++ acc.toolResults

/-- `ResponsesAdapter.convertMessagesToItems` (`src/adapters.ts`): inject
the configured instructions as a leading message item, then convert each
message. -/
def convertMessagesToItems (messages : List ChatMessage) (config : ModelConfig) :
    List RespItem :=
  let supportsSystem := config.supportsSystemRole ≠ some false
  let instrItems :=
    match config.instructions with
    | some instr =>
      let raw := jsTrimStr instr
      if raw.isEmpty then []  -- `config.instructions?.trim()` truthiness
      else
        let role := if supportsSystem then "system" else "user"
        let text := if supportsSystem then raw else "[System]: " ++ raw
        [RespItem.message role [RespContentItem.inputText text]]
    | none => []
  instrItems ++ messages.flatMap (convertOneMessage supportsSystem)

/-- The claim-relevant fields of the `ResponsesAdapter.buildRequest` body.
Tool declarations and per-request sampling overrides are not modelled
(see the section comment). -/
structure ResponsesBody where
  model : String
  input : List RespItem
  stream : Bool
  store : Bool
  previousResponseId : Option String
  reasoningEffort : Option String
  reasoningSummary : Option String
  truncation : Option String
  textVerbosity : Option String
  parallelToolCalls : Option Bool
  deriving Repr

/-- `ResponsesAdapter.buildRequest` (`src/adapters.ts`): stateful-marker
extraction and history truncation, item conversion, endpoint
normalisation, and the config-driven body fields. -/
def buildResponsesRequest (messages : List ChatMessage) (config : ModelConfig) :
    String × ResponsesBody :=
  let supportsStateful := config.supportsStatefulResponses ≠ some false
  let stateful :=
    if supportsStateful then extractPreviousResponseId messages config.id
    else none
  let effectiveMessages :=
    match stateful with
    | some (_, k) => messages.drop k
    | none => messages
  let items := convertMessagesToItems effectiveMessages config
  let endpoint := responsesEndpoint config.baseUrl
  let body : ResponsesBody :=
    { model := config.modelName
      input := items
      stream := true
      store := false
      previousResponseId :=
        match stateful with
        | some (r, _) =>
          if supportsStateful ∧ !r.isEmpty then some r else none
        | none => none
      reasoningEffort := config.reasoningEffort
      reasoningSummary := config.reasoningSummary
      truncation := config.truncation
      textVerbosity := config.textVerbosity
      parallelToolCalls := config.parallelToolCalls }
  (endpoint, body)

/-- The state reset at the start of `provideLanguageModelChatResponse`
(`src/provider.ts` lines 924–931): every per-turn field is cleared. -/
def resetAtTurnStart (st : TurnState) : TurnState :=
  { st with
    toolCallBuffers := [],
    completedToolCallIndices := [],
    hasEmittedAssistantText := false,
    emittedBeginToolCallsHint := false,
    textToolParserBuffer := "",
    textToolActive := none,
    emittedTextToolCallKeys := [],
    emittedTextToolCallIds := [] }

/-- The `finally` cleanup of `processStreamingResponse` (`src/provider.ts`
lines 1274–1281), run on every exit of the streaming loop — normal end,
error, or cancellation.  Note: `_emittedTextToolCallIds` is *not* cleared
here. -/
def cleanupAtStreamEnd (st : TurnState) : TurnState :=
  { st with
    toolCallBuffers := [],
    completedToolCallIndices := [],
    hasEmittedAssistantText := false,
    emittedBeginToolCallsHint := false,
    textToolParserBuffer := "",
    textToolActive := none,
    emittedTextToolCallKeys := [] }

/-- The reconstructor state after feeding a single-index delta sequence
`ds` at index `i` that has not yet flushed: one buffer holding the folded
updates (none if no delta has arrived yet), nothing completed, nothing
reported. -/
def midState (i : Nat) (ds : List ToolCallEvent) : TurnState :=
  { freshTurnState with
    toolCallBuffers := if ds.isEmpty then [] else [(i, accumBuffer ds)] }

/-- The reconstructor state right after flushing index `i` from a fresh
turn: buffer deleted, index completed, dedup key recorded. -/
def flushedState (i : Nat) (key : String) : TurnState :=
  { freshTurnState with
    completedToolCallIndices := [i],
    emittedTextToolCallKeys := [key] }

/-! ### Concrete inputs used by the witnesses -/

/-- The spec's eager-emission scenario: arguments `{"a":1}` split into the
fragments `{"a`, `":1`, `}`, arriving in three deltas at index 2. -/
def c1ds : List ToolCallEvent :=
  [ { index := 2, id := some "call_1", name := some "foo", args := some "\x7b\"a" },
    { index := 2, args := some "\":1" },
    { index := 2, args := some "\x7d" } ]

/-- The idempotence scenario: the same fragments at index 0. -/
def c3ds : List ToolCallEvent :=
  [ { index := 0, id := some "call_9", name := some "bar", args := some "\x7b\"a" },
    { index := 0, args := some "\":1" },
    { index := 0, args := some "\x7d" } ]

/-- A model configuration (model id `m1`) with stateful continuation
enabled (the flag is unset, which the source treats as enabled). -/
def c5cfg : ModelConfig :=
  { id := "m1", modelName := "test", baseUrl := "https://api.example.com/v1",
    maxOutputTokens := 2048 }

/-- The spec's history-truncation scenario: a 3-message conversation whose
second message carries a continuation marker for the active model. -/
def c5msgs : List ChatMessage :=
  [ { role := .user, parts := [.text "OLD"] },
    { role := .assistant, parts := [.data "stateful_marker" "m1\\resp_1"] },
    { role := .user, parts := [.text "NEW"] } ]

/-- The same conversation with a marker embedding a different model id. -/
def c5msgsOther : List ChatMessage :=
  [ { role := .user, parts := [.text "OLD"] },
    { role := .assistant, parts := [.data "stateful_marker" "m2\\resp_9"] },
    { role := .user, parts := [.text "NEW"] } ]

/-- Modelled from the spec: "a populated `tool_calls` array yields one
`toolCallDelta` per call, using the upstream-provided index verbatim" —
the per-call event list the spec describes, with each call's fields
extracted exactly as the source extracts them for the element it does
read.  This is the refinement-comparison side of claim C7; the source
side is `chatParseJson`. -/
def specChatToolCallDeltas (parsed : Json) : List StreamEventResult :=
  match chatChoice0 parsed with
  | some choice =>
    match jsGetO (jsGet choice "delta") "tool_calls" with
    | some (.arr cs) =>
      cs.map (fun tc =>
        .toolCall (jsIndexOrZero (jsGetO (some tc) "index"))
          (jsStr (jsGetO (some tc) "id"))
          (jsStr (jsGetO (jsGetO (some tc) "function") "name"))
          (jsStr (jsGetO (jsGetO (some tc) "function") "arguments")))
    | _ => []
  | none => []

/-- The `toolCallDelta` events the chat parser actually yields for one
line (the parser returns a single event per line). -/
def chatToolCallEventsOfLine (line : String) : List StreamEventResult :=
  match chatParseStreamEvent line with
  | .toolCall i id n a => [.toolCall i id n a]
  | _ => []

/-- A chat-protocol delta line whose `tool_calls` array carries two calls. -/
def c7line : String :=
  "data: \x7b\"choices\":[\x7b\"delta\":\x7b\"tool_calls\":[\x7b\"index\":0,\"id\":\"a\",\"function\":\x7b\"name\":\"f1\",\"arguments\":\"\x7b\x7d\"\x7d\x7d,\x7b\"index\":1,\"id\":\"b\",\"function\":\x7b\"name\":\"f2\",\"arguments\":\"\x7b\x7d\"\x7d\x7d]\x7d\x7d]\x7d"

/-- The first tool call of `c7line`. -/
def c7tc : Json :=
  Json.obj [("index", Json.num 0 0), ("id", Json.str "a"),
    ("function", Json.obj [("name", Json.str "f1"),
      ("arguments", Json.str "\x7b\x7d")])]

/-- The second tool call of `c7line`. -/
def c7tc2 : Json :=
  Json.obj [("index", Json.num 1 0), ("id", Json.str "b"),
    ("function", Json.obj [("name", Json.str "f2"),
      ("arguments", Json.str "\x7b\x7d")])]

/-- The single choice of `c7line`. -/
def c7choice : Json :=
  Json.obj [("delta", Json.obj [("tool_calls", Json.arr [c7tc, c7tc2])])]

/-- The parsed payload of `c7line`. -/
def c7parsedFull : Json := Json.obj [("choices", Json.arr [c7choice])]

/-- A turn state holding one tool-call buffer whose arguments are not
valid JSON. -/
def c2state : TurnState :=
  { freshTurnState with
    toolCallBuffers := [(0, { name := some "f", args := "\x7b\"x" })] }

/-- The canonical object `{"a":1}`. -/
def c10v : Json := Json.obj [("a", Json.num 1 0)]

/-- A turn state holding one complete tool-call buffer for `f`. -/
def c10state : TurnState :=
  { freshTurnState with
    toolCallBuffers := [(0, { name := some "f", args := "\x7b\"a\":1\x7d" })] }

/-- An inline text-channel call named `f` without an index. -/
def c10call : ActiveTextToolCall :=
  { name := some "f", index := none, argBuffer := "", emitted := false }

/-! ## Theorems -/

lemma jsEndsWith_append_of (a : String) {b c : String}
    (h : jsEndsWith b c = true) : jsEndsWith (a ++ b) c = true := by
  simp only [jsEndsWith, List.isSuffixOf_iff_suffix] at h ⊢
  rw [String.data_append]
  exact h.trans (List.suffix_append _ _)

/-- **C8.** For every configured base URL — one already ending in the
versioned `/v1` prefix, one already ending in the resource path, or
neither — the chat-protocol builder's output endpoint ends with
`/chat/completions` and the items-protocol builder's output endpoint ends
with `/responses`.  (Proved for *all* base URLs.) -/
theorem c8_endpoint_resource_suffix (baseUrl : String) :
    jsEndsWith (chatCompletionsEndpoint baseUrl) "/chat/completions" = true ∧
    jsEndsWith (responsesEndpoint baseUrl) "/responses" = true := by
  constructor
  · unfold chatCompletionsEndpoint
    split
    · assumption
    · dsimp only
      split
      · exact jsEndsWith_append_of _ (by decide)
      · split
        · exact jsEndsWith_append_of _ (by decide)
        · exact jsEndsWith_append_of _ (by decide)
  · unfold responsesEndpoint
    split
    · assumption
    · dsimp only
      split
      · exact jsEndsWith_append_of _ (by decide)
      · split
        · exact jsEndsWith_append_of _ (by decide)
        · exact jsEndsWith_append_of _ (by decide)

/-- **C9 counterexample.**  The claim asserts that all per-turn state —
including the emitted-key sets — is reset when the stream terminates; but
the `finally` cleanup of `processStreamingResponse` does not clear
`_emittedTextToolCallIds`, so a state holding an inline `(name, index)`
dedup key is not reset to the fresh state by stream termination. -/
theorem c9_cleanup_is_not_full_reset :
    cleanupAtStreamEnd
        { freshTurnState with emittedTextToolCallIds := ["foo:1"] } ≠
      freshTurnState := by decide

/-- **C9 (amended).**  All per-turn state is reset at the start of every
turn; stream termination resets all of it *except* the inline tokenizer's
`(name, index)` emitted-id set, which survives until the next turn's
start-of-turn reset — so no per-turn state ever survives into the next
turn's processing. -/
theorem c9_per_turn_state_reset (st : TurnState) :
    resetAtTurnStart st = freshTurnState ∧
    cleanupAtStreamEnd st =
      { freshTurnState with emittedTextToolCallIds := st.emittedTextToolCallIds } ∧
    resetAtTurnStart (cleanupAtStreamEnd st) = freshTurnState :=
  ⟨rfl, rfl, rfl⟩

/-- **C4** (code-bug evidence).  A chunk whose tail `"<|tool"` is a strict
prefix of `<|tool_call_begin|>` is *not* held back: the loop stores the
tail in `_textToolParserBuffer` and breaks with `data = ""`, but the
trailing `this._textToolParserBuffer = data` then clobbers the buffer with
the empty string, so the tail is neither emitted nor prepended to the next
chunk — it is silently lost, and a token split across the boundary is
never reassembled. -/
theorem c4_held_back_tail_is_lost :
    (processTextContent freshTurnState "hello <|tool").1 = freshTurnState ∧
    (processTextContent freshTurnState "hello <|tool").2.1 =
      [Part.text "hello "] ∧
    (processTextContent freshTurnState "_call_begin|>x<|tool_call_end|> y").2.1 =
      [Part.text "_call_begin|>x y"] :=
  ⟨by decide, rfl, rfl⟩

lemma flushLoop_throw_error (entries : List (Nat × ToolCallBuffer))
    (st : TurnState) (acc : List Part)
    (h : ∃ e ∈ entries, tryParseJSONObject e.2.args = none) :
    ∃ msg, flushLoop entries st true acc = Except.error msg := by
  induction entries generalizing st acc with
  | nil => simp at h
  | cons hd tl ih =>
    obtain ⟨idx, buf⟩ := hd
    obtain ⟨e, hmem, hbad⟩ := h
    cases hpar : tryParseJSONObject buf.args with
    | none =>
      exact ⟨"Invalid JSON for tool call", by simp [flushLoop, hpar]⟩
    | some v =>
      rcases List.mem_cons.mp hmem with heq | hmem'
      · subst heq
        simp only at hbad
        rw [hbad] at hpar
        cases hpar
      · simp only [flushLoop, hpar]
        exact ih _ _ ⟨e, hmem', hbad⟩

lemma flushLoop_silent (entries : List (Nat × ToolCallBuffer))
    (st : TurnState) (acc : List Part) :
    ∃ st', flushLoop entries st false acc =
      Except.ok (st', acc ++ entries.filterMap flushEmitOf) := by
  induction entries generalizing st acc with
  | nil => exact ⟨st, by simp [flushLoop]⟩
  | cons hd tl ih =>
    obtain ⟨idx, buf⟩ := hd
    cases hpar : tryParseJSONObject buf.args with
    | none =>
      obtain ⟨st', h'⟩ := ih st acc
      refine ⟨st', ?_⟩
      simp only [flushLoop, hpar, List.filterMap_cons]
      simpa [flushEmitOf, hpar] using h'
    | some v =>
      obtain ⟨st', h'⟩ :=
        ih { st with
              emittedTextToolCallKeys :=
                setAdd st.emittedTextToolCallKeys
                  (buf.name.getD "unknown_tool" ++ ":" ++ jsonStringify v),
              toolCallBuffers := mapDelete st.toolCallBuffers idx,
              completedToolCallIndices :=
                setAdd st.completedToolCallIndices idx }
          (acc ++ [Part.toolCall buf.id (buf.name.getD "unknown_tool") v])
      refine ⟨st', ?_⟩
      simp only [flushLoop, hpar, List.filterMap_cons]
      simpa [flushEmitOf, hpar] using h'

/-- **C2.**  If, when a `finish` event with reason `stop` or `tool_calls`
is processed, some tool-call buffer's accumulated arguments do not parse
as a JSON object, the turn raises an error; the identical buffer state
processed at a `done` event does not raise, and the unparseable buffer is
silently dropped: the silent flush emits exactly the parseable buffers. -/
theorem c2_finish_fatal_done_silent (st : TurnState)
    (h : ∃ e ∈ st.toolCallBuffers, tryParseJSONObject e.2.args = none) :
    (∃ msg, handleFinish st "stop" = Except.error msg) ∧
    (∃ msg, handleFinish st "tool_calls" = Except.error msg) ∧
    (∃ st', flushToolCallBuffers st false =
      Except.ok (st', st.toolCallBuffers.filterMap flushEmitOf)) ∧
    (∃ st₂ ps₂, handleDone st =
      (st₂, st.toolCallBuffers.filterMap flushEmitOf ++ ps₂)) := by
  have hne : st.toolCallBuffers.isEmpty = false := by
    obtain ⟨e, he, -⟩ := h
    cases hb : st.toolCallBuffers with
    | nil => rw [hb] at he; simp at he
    | cons x xs => simp
  have h3 : ∃ st', flushToolCallBuffers st false =
      Except.ok (st', st.toolCallBuffers.filterMap flushEmitOf) := by
    obtain ⟨st', h'⟩ := flushLoop_silent st.toolCallBuffers st []
    exact ⟨st', by simpa [flushToolCallBuffers, hne] using h'⟩
  refine ⟨?_, ?_, h3, ?_⟩
  · have := flushLoop_throw_error st.toolCallBuffers st [] h
    simpa [handleFinish, flushToolCallBuffers, hne] using this
  · have := flushLoop_throw_error st.toolCallBuffers st [] h
    simpa [handleFinish, flushToolCallBuffers, hne] using this
  · obtain ⟨st', h'⟩ := h3
    exact ⟨(flushActiveTextToolCall st').1, (flushActiveTextToolCall st').2,
      by simp [handleDone, h']⟩

/-- Witness for C2 at a concrete one-buffer state. -/
theorem c2_finish_fatal_done_silent_witness :
    (∃ msg, handleFinish c2state "stop" = Except.error msg) ∧
    (∃ msg, handleFinish c2state "tool_calls" = Except.error msg) ∧
    (∃ st', flushToolCallBuffers c2state false =
      Except.ok (st', c2state.toolCallBuffers.filterMap flushEmitOf)) ∧
    (∃ st₂ ps₂, handleDone c2state =
      (st₂, c2state.toolCallBuffers.filterMap flushEmitOf ++ ps₂)) :=
  c2_finish_fatal_done_silent c2state
    ⟨(0, { name := some "f", args := "\x7b\"x" }), by decide, rfl⟩

lemma mem_setAdd_self {α : Type} [DecidableEq α] (s : List α) (a : α) :
    a ∈ setAdd s a := by
  unfold setAdd
  split
  · assumption
  · simp

lemma mem_setAdd_of_mem {α : Type} [DecidableEq α] {s : List α} {a : α}
    (x : α) (h : a ∈ s) : a ∈ setAdd s x := by
  unfold setAdd
  split
  · exact h
  · exact List.mem_append_left _ h

lemma flushLoop_keys_mono (entries : List (Nat × ToolCallBuffer))
    (st₁ : TurnState) (b : Bool) (acc : List Part) (st₂ : TurnState)
    (ps : List Part) (k : String)
    (hk : k ∈ st₁.emittedTextToolCallKeys)
    (hrun : flushLoop entries st₁ b acc = Except.ok (st₂, ps)) :
    k ∈ st₂.emittedTextToolCallKeys := by
  induction entries generalizing st₁ acc with
  | nil =>
    simp [flushLoop] at hrun
    rw [← hrun.1]
    exact hk
  | cons hd tl ih =>
    obtain ⟨idx, buf⟩ := hd
    cases hpar : tryParseJSONObject buf.args with
    | none =>
      simp only [flushLoop, hpar] at hrun
      cases b with
      | true => simp at hrun
      | false => exact ih _ _ hk hrun
    | some v =>
      simp only [flushLoop, hpar] at hrun
      exact ih _ _ (mem_setAdd_of_mem _ hk) hrun

lemma flushLoop_records_key (entries : List (Nat × ToolCallBuffer))
    (st₁ : TurnState) (b : Bool) (acc : List Part) (st₂ : TurnState)
    (ps : List Part) (idx : Nat) (buf : ToolCallBuffer) (v : Json)
    (hparse : tryParseJSONObject buf.args = some v)
    (hmem : (idx, buf) ∈ entries)
    (hrun : flushLoop entries st₁ b acc = Except.ok (st₂, ps)) :
    (buf.name.getD "unknown_tool" ++ ":" ++ jsonStringify v) ∈
      st₂.emittedTextToolCallKeys := by
  induction entries generalizing st₁ acc with
  | nil => simp at hmem
  | cons hd tl ih =>
    obtain ⟨idx', buf'⟩ := hd
    rcases List.mem_cons.mp hmem with heq | hmem'
    · obtain ⟨rfl, rfl⟩ := Prod.mk.injEq .. ▸ heq
      simp only [flushLoop, hparse] at hrun
      exact flushLoop_keys_mono tl _ b _ _ _ _ (mem_setAdd_self _ _) hrun
    · cases hpar' : tryParseJSONObject buf'.args with
      | none =>
        simp only [flushLoop, hpar'] at hrun
        cases b with
        | true => simp at hrun
        | false => exact ih _ _ hmem' hrun
      | some v' =>
        simp only [flushLoop, hpar'] at hrun
        exact ih _ _ hmem' hrun

/-- **C10.**  The delta channel and the inline text channel share
duplicate-suppression keys: a tool call emitted by
`tryEmitBufferedToolCall` (or by a flush) records its
`(name, canonical-JSON-arguments)` key in `_emittedTextToolCallKeys`, and
an inline text-embedded call without an index whose name and canonical
arguments match is suppressed — `emitTextToolCallIfValid` returns `false`
and leaves the state unchanged. -/
theorem c10_cross_channel_dedup (st : TurnState) (idx : Nat)
    (buf : ToolCallBuffer) (n : String) (v : Json)
    (hbuf : mapGet st.toolCallBuffers idx = some buf)
    (hname : buf.name = some n)
    (hne : n.isEmpty = false)
    (hparse : tryParseJSONObject buf.args = some v) :
    (n ++ ":" ++ jsonStringify v) ∈
      (tryEmitBufferedToolCall st idx).1.emittedTextToolCallKeys ∧
    (tryEmitBufferedToolCall st idx).2 = [Part.toolCall buf.id n v] ∧
    (∀ (call : ActiveTextToolCall) (argText : String) (v' : Json),
      call.index = none → call.name = some n →
      tryParseJSONObject argText = some v' →
      jsonStringify v' = jsonStringify v →
      emitTextToolCallIfValid (tryEmitBufferedToolCall st idx).1 call argText =
        ((tryEmitBufferedToolCall st idx).1, false, [])) ∧
    (∀ (entries : List (Nat × ToolCallBuffer)) (st₁ : TurnState) (b : Bool)
        (acc : List Part) (st₂ : TurnState) (ps : List Part),
      (idx, buf) ∈ entries →
      flushLoop entries st₁ b acc = Except.ok (st₂, ps) →
      (buf.name.getD "unknown_tool" ++ ":" ++ jsonStringify v) ∈
        st₂.emittedTextToolCallKeys) := by
  have hemit : tryEmitBufferedToolCall st idx =
      ({ st with
          emittedTextToolCallKeys :=
            setAdd st.emittedTextToolCallKeys (n ++ ":" ++ jsonStringify v),
          toolCallBuffers := mapDelete st.toolCallBuffers idx,
          completedToolCallIndices := setAdd st.completedToolCallIndices idx },
        [Part.toolCall buf.id n v]) := by
    simp [tryEmitBufferedToolCall, hbuf, hname, hne, hparse]
  refine ⟨?_, ?_, ?_, ?_⟩
  · rw [hemit]
    exact mem_setAdd_self _ _
  · rw [hemit]
  · intro call argText v' hidx hcname hparse' hcanon
    have hkey : (n ++ ":" ++ jsonStringify v) ∈
        (tryEmitBufferedToolCall st idx).1.emittedTextToolCallKeys := by
      rw [hemit]
      exact mem_setAdd_self _ _
    simp [emitTextToolCallIfValid, hcname, hparse', hidx, hcanon, hkey]
  · intro entries st₁ b acc st₂ ps hmem hrun
    exact flushLoop_records_key entries st₁ b acc st₂ ps idx buf v hparse hmem hrun

/-- Witness for C10: the delta channel emits `f` with `{"a":1}`, then an
inline call named `f` whose arguments parse to the same canonical object
(different whitespace) is suppressed. -/
theorem c10_cross_channel_dedup_witness :
    ("f:" ++ jsonStringify c10v) ∈
      (tryEmitBufferedToolCall c10state 0).1.emittedTextToolCallKeys ∧
    emitTextToolCallIfValid (tryEmitBufferedToolCall c10state 0).1 c10call
        "\x7b \"a\" : 1 \x7d" =
      ((tryEmitBufferedToolCall c10state 0).1, false, []) :=
  have h := c10_cross_channel_dedup c10state 0
    { name := some "f", args := "\x7b\"a\":1\x7d" } "f" c10v rfl rfl rfl rfl
  ⟨h.1, h.2.2.1 c10call "\x7b \"a\" : 1 \x7d" c10v rfl rfl rfl rfl⟩

lemma countToolCalls_append (a b : List Part) :
    countToolCalls (a ++ b) = countToolCalls a + countToolCalls b := by
  simp [countToolCalls, List.filter_append]

lemma runDeltas_append (st : TurnState) (xs ys : List ToolCallEvent) :
    runDeltas st (xs ++ ys) =
      ((runDeltas (runDeltas st xs).1 ys).1,
        (runDeltas st xs).2 ++ (runDeltas (runDeltas st xs).1 ys).2) := by
  induction xs generalizing st with
  | nil => simp [runDeltas]
  | cons d xs ih => simp [runDeltas, ih]

lemma accumBuffer_append (ds : List ToolCallEvent) (d : ToolCallEvent) :
    accumBuffer (ds ++ [d]) = applyDeltaToBuffer (accumBuffer ds) d := by
  simp [accumBuffer]

lemma mapGet_mapSet_self (m : List (Nat × ToolCallBuffer)) (k : Nat)
    (v : ToolCallBuffer) : mapGet (mapSet m k v) k = some v := by
  induction m with
  | nil => simp [mapSet, mapGet]
  | cons hd tl ih =>
    obtain ⟨k', v'⟩ := hd
    by_cases hk : k' = k
    · simp [mapSet, mapGet, hk]
    · simp [mapSet, mapGet, hk, ih]

lemma bufferFlushable_iff (b : ToolCallBuffer) :
    bufferFlushable b = true ↔
      ∃ n v, b.name = some n ∧ n.isEmpty = false ∧
        tryParseJSONObject b.args = some v := by
  unfold bufferFlushable
  cases hn : b.name with
  | none => simp
  | some nm =>
    simp only [Bool.and_eq_true, Bool.not_eq_true', Option.isSome_iff_exists]
    constructor
    · rintro ⟨hne, v, hv⟩
      exact ⟨nm, v, rfl, hne, hv⟩
    · rintro ⟨n, v, hn', hne, hv⟩
      cases hn'
      exact ⟨hne, v, hv⟩

lemma tryEmit_not_flushable (st : TurnState) (i : Nat) (b : ToolCallBuffer)
    (hget : mapGet st.toolCallBuffers i = some b)
    (hnf : bufferFlushable b = false) :
    tryEmitBufferedToolCall st i = (st, []) := by
  unfold tryEmitBufferedToolCall
  rw [hget]
  unfold bufferFlushable at hnf
  cases hn : b.name with
  | none => simp [hn]
  | some nm =>
    rw [hn] at hnf
    cases hni : nm.isEmpty with
    | true => simp [hn, hni]
    | false =>
      simp only [hni, Bool.not_false, Bool.true_and] at hnf
      cases hp : tryParseJSONObject b.args with
      | none => simp [hn, hni, hp]
      | some v => rw [hp] at hnf; simp at hnf

lemma tryEmit_flushable (st : TurnState) (i : Nat) (b : ToolCallBuffer)
    (n : String) (v : Json)
    (hget : mapGet st.toolCallBuffers i = some b)
    (hn : b.name = some n) (hne : n.isEmpty = false)
    (hp : tryParseJSONObject b.args = some v) :
    tryEmitBufferedToolCall st i =
      ({ st with
          emittedTextToolCallKeys :=
            setAdd st.emittedTextToolCallKeys (n ++ ":" ++ jsonStringify v),
          toolCallBuffers := mapDelete st.toolCallBuffers i,
          completedToolCallIndices := setAdd st.completedToolCallIndices i },
        [Part.toolCall b.id n v]) := by
  simp [tryEmitBufferedToolCall, hget, hn, hne, hp]

lemma process_completed_skip (st : TurnState) (d : ToolCallEvent)
    (hmem : d.index ∈ st.completedToolCallIndices)
    (hT : st.hasEmittedAssistantText = false) :
    processToolCallEvent st d = (st, []) := by
  unfold processToolCallEvent
  simp [hT, hmem]

lemma runDeltas_completed_skip (i : Nat) (ds : List ToolCallEvent)
    (st : TurnState) (hall : ∀ d ∈ ds, d.index = i)
    (hmem : i ∈ st.completedToolCallIndices)
    (hT : st.hasEmittedAssistantText = false) :
    runDeltas st ds = (st, []) := by
  induction ds with
  | nil => rfl
  | cons d tl ih =>
    have hd : d.index = i := hall d (by simp)
    have hskip := process_completed_skip st d (by rw [hd]; exact hmem) hT
    simp [runDeltas, hskip, ih (fun x hx => hall x (by simp [hx]))]

lemma accumBuffer_nil_apply (d : ToolCallEvent) :
    accumBuffer [d] = applyDeltaToBuffer ⟨none, none, ""⟩ d := rfl

lemma updatedBuffers_midState (i : Nat) (ds : List ToolCallEvent)
    (d : ToolCallEvent) (hidx : d.index = i) :
    updatedBuffers (midState i ds) d =
      (midState i (ds ++ [d])).toolCallBuffers := by
  unfold updatedBuffers
  cases ds with
  | nil =>
    simp [midState, mapGet, mapSet, hidx, accumBuffer_nil_apply]
  | cons e tl =>
    simp [midState, mapGet, mapSet, hidx, ← accumBuffer_append]

lemma process_no_hint (st : TurnState) (d : ToolCallEvent)
    (hT : st.hasEmittedAssistantText = false)
    (hc : d.index ∉ st.completedToolCallIndices) :
    processToolCallEvent st d =
      tryEmitBufferedToolCall
        { st with toolCallBuffers := updatedBuffers st d } d.index := by
  unfold processToolCallEvent updatedBuffers
  simp [hT, hc]

lemma midState_set_eq (i : Nat) (ds : List ToolCallEvent) (d : ToolCallEvent)
    (hidx : d.index = i) :
    ({ midState i ds with toolCallBuffers := updatedBuffers (midState i ds) d } :
      TurnState) = midState i (ds ++ [d]) := by
  rw [updatedBuffers_midState i ds d hidx]
  simp [midState]

lemma process_midState_no_flush (i : Nat) (ds : List ToolCallEvent)
    (d : ToolCallEvent) (hidx : d.index = i)
    (hnf : bufferFlushable (accumBuffer (ds ++ [d])) = false) :
    processToolCallEvent (midState i ds) d = (midState i (ds ++ [d]), []) := by
  rw [process_no_hint (midState i ds) d rfl (by simp [midState, freshTurnState]),
    midState_set_eq i ds d hidx]
  exact tryEmit_not_flushable _ _ _ (by simp [midState, mapGet, hidx]) hnf

lemma process_midState_flush (i : Nat) (ds : List ToolCallEvent)
    (d : ToolCallEvent) (hidx : d.index = i) (n : String) (v : Json)
    (hn : (accumBuffer (ds ++ [d])).name = some n) (hne : n.isEmpty = false)
    (hp : tryParseJSONObject (accumBuffer (ds ++ [d])).args = some v) :
    processToolCallEvent (midState i ds) d =
      (flushedState i (n ++ ":" ++ jsonStringify v),
       [Part.toolCall (accumBuffer (ds ++ [d])).id n v]) := by
  rw [process_no_hint (midState i ds) d rfl (by simp [midState, freshTurnState]),
    midState_set_eq i ds d hidx]
  rw [tryEmit_flushable (midState i (ds ++ [d])) d.index
    (accumBuffer (ds ++ [d])) n v (by simp [midState, mapGet, hidx]) hn hne hp]
  congr 1
  simp [flushedState, midState, setAdd, mapDelete, hidx, freshTurnState]

lemma runDeltas_no_flush (i : Nat) (ds : List ToolCallEvent)
    (hall : ∀ d ∈ ds, d.index = i)
    (hnf : ∀ j, j < ds.length →
      bufferFlushable (accumBuffer (ds.take (j + 1))) = false) :
    runDeltas freshTurnState ds = (midState i ds, []) := by
  induction ds using List.reverseRecOn with
  | nil => rfl
  | append_singleton xs d ih =>
    have hall_xs : ∀ x ∈ xs, x.index = i :=
      fun x hx => hall x (List.mem_append_left _ hx)
    have hpre : runDeltas freshTurnState xs = (midState i xs, []) := by
      apply ih hall_xs
      intro j hj
      have hnf' := hnf j (by simp; omega)
      rwa [List.take_append_of_le_length (by omega)] at hnf'
    have hstep := process_midState_no_flush i xs d
      (hall d (List.mem_append_right _ (by simp)))
      (by
        have := hnf xs.length (by simp)
        rwa [show (xs ++ [d]).take (xs.length + 1) = xs ++ [d] from by
          apply List.take_of_length_le; simp] at this)
    rw [runDeltas_append, hpre]
    simp [runDeltas, hstep]

/-- **C1.**  For every sequence of toolCallDelta events addressed to one
index, the Tool-Call Reconstructor emits the tool call at the earliest
delta after which the buffer has a non-empty name and its accumulated
argument fragments concatenate to a valid JSON object — immediately at
that delta, not at stream end — and emits it exactly once over the whole
sequence. -/
theorem c1_eager_single_emission (ds : List ToolCallEvent) (i k : Nat)
    (hall : ds.all (fun d => d.index == i) = true)
    (hk : k < ds.length)
    (hfl : bufferFlushable (accumBuffer (ds.take (k + 1))) = true)
    (hmin : ((List.range k).all
      (fun j => !bufferFlushable (accumBuffer (ds.take (j + 1))))) = true) :
    countToolCalls (runDeltas freshTurnState ds).2 = 1 ∧
    countToolCalls (runDeltas freshTurnState (ds.take (k + 1))).2 = 1 ∧
    countToolCalls (runDeltas freshTurnState (ds.take k)).2 = 0 := by
  have hall' : ∀ d ∈ ds, d.index = i := by
    intro d hd
    simpa using List.all_eq_true.mp hall d hd
  have hmin' : ∀ j, j < k →
      bufferFlushable (accumBuffer (ds.take (j + 1))) = false := by
    intro j hj
    simpa using List.all_eq_true.mp hmin j (List.mem_range.mpr hj)
  have htake : ds.take (k + 1) = ds.take k ++ [ds.get ⟨k, hk⟩] := by
    rw [← List.take_concat_get ds k hk]
    simp
  have hpre : runDeltas freshTurnState (ds.take k) =
      (midState i (ds.take k), []) := by
    apply runDeltas_no_flush
    · exact fun d hd => hall' d (List.take_subset _ _ hd)
    · intro j hj
      have hjk : j < k := by
        have : (ds.take k).length ≤ k := by simp
        omega
      rw [List.take_take]
      rw [show min (j + 1) k = j + 1 from by omega]
      exact hmin' j hjk
  obtain ⟨n, v, hn, hne, hp⟩ := (bufferFlushable_iff _).mp hfl
  rw [htake] at hn hp
  have hstep := process_midState_flush i (ds.take k) (ds.get ⟨k, hk⟩)
    (hall' _ (ds.get_mem k hk)) n v hn hne hp
  simp only [List.get_eq_getElem] at hstep
  have h2 : runDeltas freshTurnState (ds.take (k + 1)) =
      (flushedState i (n ++ ":" ++ jsonStringify v),
        [Part.toolCall (accumBuffer (ds.take k ++ [ds.get ⟨k, hk⟩])).id n v]) := by
    rw [htake, runDeltas_append, hpre]
    simp [runDeltas, hstep]
  refine ⟨?_, ?_, ?_⟩
  · have hds : ds = ds.take (k + 1) ++ ds.drop (k + 1) :=
      (List.take_append_drop _ _).symm
    conv_lhs => rw [hds]
    rw [runDeltas_append, h2]
    have hrest := runDeltas_completed_skip i (ds.drop (k + 1))
      (flushedState i (n ++ ":" ++ jsonStringify v))
      (fun d hd => hall' d (List.drop_subset _ _ hd))
      (by simp [flushedState, freshTurnState])
      (by simp [flushedState, freshTurnState])
    simp [hrest, countToolCalls_append, countToolCalls]
  · rw [h2]
    simp [countToolCalls]
  · rw [hpre]
    simp [countToolCalls]

/-- Witness for C1: emission happens exactly at the third fragment of
`{"a":1}` split as `{"a` · `":1` · `}`, and exactly once. -/
theorem c1_eager_single_emission_witness :
    countToolCalls (runDeltas freshTurnState c1ds).2 = 1 ∧
    countToolCalls (runDeltas freshTurnState (c1ds.take 3)).2 = 1 ∧
    countToolCalls (runDeltas freshTurnState (c1ds.take 2)).2 = 0 :=
  c1_eager_single_emission c1ds 2 2 (by decide) (by decide) (by decide)
    (by decide)

lemma process_cases (st : TurnState) (d : ToolCallEvent)
    (hT : st.hasEmittedAssistantText = false) :
    (processToolCallEvent st d).1.hasEmittedAssistantText = false ∧
    (((processToolCallEvent st d).2 = [] ∧
      (processToolCallEvent st d).1.completedToolCallIndices =
        st.completedToolCallIndices) ∨
     (countToolCalls (processToolCallEvent st d).2 = 1 ∧
      (processToolCallEvent st d).1.completedToolCallIndices =
        setAdd st.completedToolCallIndices d.index)) := by
  by_cases hc : d.index ∈ st.completedToolCallIndices
  · rw [process_completed_skip st d hc hT]
    exact ⟨hT, Or.inl ⟨rfl, rfl⟩⟩
  ·
    rw [process_no_hint st d hT hc]
    set st1 : TurnState :=
      { st with toolCallBuffers := updatedBuffers st d } with hst1
    have hget : mapGet st1.toolCallBuffers d.index =
        some (applyDeltaToBuffer
          ((mapGet st.toolCallBuffers d.index).getD ⟨none, none, ""⟩) d) :=
      mapGet_mapSet_self _ _ _
    cases hfl : bufferFlushable
        (applyDeltaToBuffer
          ((mapGet st.toolCallBuffers d.index).getD ⟨none, none, ""⟩) d) with
    | false =>
      rw [tryEmit_not_flushable st1 d.index _ hget hfl]
      exact ⟨hT, Or.inl ⟨rfl, rfl⟩⟩
    | true =>
      obtain ⟨n, v, hn, hne, hp⟩ := (bufferFlushable_iff _).mp hfl
      rw [tryEmit_flushable st1 d.index _ n v hget hn hne hp]
      exact ⟨hT, Or.inr ⟨by simp [countToolCalls], rfl⟩⟩

lemma runDeltas_at_most_one (i : Nat) (ds : List ToolCallEvent)
    (st : TurnState) (hall : ∀ d ∈ ds, d.index = i)
    (hT : st.hasEmittedAssistantText = false) :
    countToolCalls (runDeltas st ds).2 ≤ 1 ∧
    (runDeltas st ds).1.hasEmittedAssistantText = false ∧
    (1 ≤ countToolCalls (runDeltas st ds).2 →
      i ∈ (runDeltas st ds).1.completedToolCallIndices) := by
  induction ds generalizing st with
  | nil => simp [runDeltas, countToolCalls, hT]
  | cons d tl ih =>
    have hd : d.index = i := hall d (by simp)
    obtain ⟨hT1, hcase⟩ := process_cases st d hT
    have htl : ∀ x ∈ tl, x.index = i := fun x hx => hall x (by simp [hx])
    rcases hcase with ⟨hps, hcomp⟩ | ⟨hcnt, hcomp⟩
    · obtain ⟨ihle, ihT, ihmem⟩ := ih (processToolCallEvent st d).1 htl hT1
      simp only [runDeltas]
      simp [hps, countToolCalls_append]
      exact ⟨ihle, ihT, ihmem⟩
    · have hm : i ∈ (processToolCallEvent st d).1.completedToolCallIndices := by
        rw [hcomp, ← hd]
        exact mem_setAdd_self _ _
      have hrest := runDeltas_completed_skip i tl
        (processToolCallEvent st d).1 htl hm hT1
      simp only [runDeltas]
      simp [hrest, countToolCalls_append, hcnt, hT1, hm]

/-- **C3.**  Feeding the Reconstructor a delta sequence addressed to one
index yields at most one emitted call, and when the sequence yields an
emitted call, feeding the same sequence twice yields exactly one emitted
call: once emitted, the index is marked completed and every later delta
addressed to it is ignored. -/
theorem c3_idempotent_double_feed (ds : List ToolCallEvent) (i : Nat)
    (hall : ds.all (fun d => d.index == i) = true) :
    countToolCalls (runDeltas freshTurnState ds).2 ≤ 1 ∧
    (countToolCalls (runDeltas freshTurnState ds).2 = 1 →
      countToolCalls (runDeltas freshTurnState (ds ++ ds)).2 = 1) := by
  have hall' : ∀ d ∈ ds, d.index = i := by
    intro d hd
    simpa using List.all_eq_true.mp hall d hd
  obtain ⟨hle, hTfin, hmem⟩ :=
    runDeltas_at_most_one i ds freshTurnState hall' rfl
  refine ⟨hle, fun h1 => ?_⟩
  have hmem' := hmem (by omega)
  have hrest := runDeltas_completed_skip i ds
    (runDeltas freshTurnState ds).1 hall' hmem' hTfin
  rw [runDeltas_append, hrest]
  simp [countToolCalls_append, h1]

/-- Witness for C3: the concrete fragment sequence emits once, and fed
twice still emits exactly once. -/
theorem c3_idempotent_double_feed_witness :
    countToolCalls (runDeltas freshTurnState c3ds).2 ≤ 1 ∧
    countToolCalls (runDeltas freshTurnState (c3ds ++ c3ds)).2 = 1 :=
  have h := c3_idempotent_double_feed c3ds 0 (by decide)
  ⟨h.1, h.2 (by decide)⟩

lemma markerOfPart_nonempty {modelId : String} {p : MsgPart} {r : String}
    (h : markerOfPart modelId p = some r) : r.isEmpty = false := by
  cases p with
  | data mime payload =>
    simp only [markerOfPart] at h
    repeat' split at h
    all_goals simp_all
  | text s => simp [markerOfPart] at h
  | toolCall a b c => simp [markerOfPart] at h
  | toolResult a b => simp [markerOfPart] at h

lemma lastMarkerIn_foldl_nonempty {modelId : String} (parts : List MsgPart)
    (acc : Option String)
    (hacc : ∀ r', acc = some r' → r'.isEmpty = false) {r : String}
    (h : parts.foldl
      (fun acc p =>
        match markerOfPart modelId p with
        | some m => some m
        | none => acc) acc = some r) : r.isEmpty = false := by
  induction parts generalizing acc with
  | nil => exact hacc r h
  | cons p ps ih =>
    simp only [List.foldl_cons] at h
    cases hp : markerOfPart modelId p with
    | none =>
      rw [hp] at h
      exact ih acc hacc h
    | some m =>
      rw [hp] at h
      exact ih (some m)
        (fun r' hr' => by cases hr'; exact markerOfPart_nonempty hp) h

lemma lastMarkerIn_nonempty {modelId : String} {msg : ChatMessage}
    {r : String} (h : lastMarkerIn modelId msg = some r) :
    r.isEmpty = false :=
  lastMarkerIn_foldl_nonempty msg.parts none (by simp) h

lemma extractPrevGo_all_none (modelId : String) (msgs : List ChatMessage)
    (base : Nat) (acc : Option (String × Nat))
    (h : ∀ msg ∈ msgs, lastMarkerIn modelId msg = none) :
    extractPrevGo modelId msgs base acc = acc := by
  induction msgs generalizing base acc with
  | nil => rfl
  | cons m rest ih =>
    have hm : lastMarkerIn modelId m = none := h m (by simp)
    simp only [extractPrevGo, hm]
    exact ih _ _ (fun x hx => h x (by simp [hx]))

lemma extractPrevGo_found (modelId : String) (msgs : List ChatMessage)
    (i : Nat) (r : String) (base : Nat) (acc : Option (String × Nat))
    (hi : i < msgs.length)
    (hmark : lastMarkerIn modelId (msgs.getD i ⟨ChatRole.user, []⟩) = some r)
    (hafter : ∀ msg ∈ msgs.drop (i + 1), lastMarkerIn modelId msg = none) :
    extractPrevGo modelId msgs base acc = some (r, base + i + 1) := by
  induction msgs generalizing i base acc with
  | nil => simp at hi
  | cons m rest ih =>
    cases i with
    | zero =>
      simp only [List.getD_cons_zero] at hmark
      simp only [extractPrevGo, hmark]
      rw [extractPrevGo_all_none modelId rest (base + 1) _
        (fun x hx => hafter x (by simpa using hx))]
    | succ j =>
      have hmark' : lastMarkerIn modelId (rest.getD j ⟨ChatRole.user, []⟩) =
          some r := by simpa using hmark
      have hafter' : ∀ msg ∈ rest.drop (j + 1),
          lastMarkerIn modelId msg = none :=
        fun x hx => hafter x (by simpa using hx)
      have hi' : j < rest.length := by simpa using hi
      simp only [extractPrevGo]
      rw [show base + (j + 1) + 1 = (base + 1) + j + 1 from by omega]
      cases hm : lastMarkerIn modelId m with
      | none => exact ih j (base + 1) _ hi' hmark' hafter'
      | some m' => exact ih j (base + 1) _ hi' hmark' hafter'

/-- **C5.**  With stateful continuation enabled, the items-protocol
builder finds the most recent continuation marker whose embedded model id
matches, sends its embedded response id as `previous_response_id`, and
includes only the messages strictly after the marker's message in the
request items; a conversation whose markers all fail to match (e.g. a
marker embedding a different model id) is sent whole, without the
parameter. -/
theorem c5_stateful_truncation (ms : List ChatMessage) (cfg : ModelConfig)
    (i : Nat) (r : String)
    (hstateful : cfg.supportsStatefulResponses ≠ some false)
    (hi : i < ms.length)
    (hmark : lastMarkerIn cfg.id (ms.getD i ⟨ChatRole.user, []⟩) = some r)
    (hafter : ∀ msg ∈ ms.drop (i + 1), lastMarkerIn cfg.id msg = none) :
    extractPreviousResponseId ms cfg.id = some (r, i + 1) ∧
    (buildResponsesRequest ms cfg).2.previousResponseId = some r ∧
    (buildResponsesRequest ms cfg).2.input =
      convertMessagesToItems (ms.drop (i + 1)) cfg ∧
    (∀ ms' : List ChatMessage,
      (∀ msg ∈ ms', lastMarkerIn cfg.id msg = none) →
      extractPreviousResponseId ms' cfg.id = none ∧
      (buildResponsesRequest ms' cfg).2.previousResponseId = none ∧
      (buildResponsesRequest ms' cfg).2.input =
        convertMessagesToItems ms' cfg) := by
  have hext : extractPreviousResponseId ms cfg.id = some (r, i + 1) := by
    unfold extractPreviousResponseId
    have := extractPrevGo_found cfg.id ms i r 0 none hi hmark hafter
    simpa using this
  have hremp : r.isEmpty = false := by
    have hd : (ms.drop i) ≠ [] := by
      intro hnil
      have := congrArg List.length hnil
      simp at this
      omega
    exact lastMarkerIn_nonempty hmark
  refine ⟨hext, ?_, ?_, ?_⟩
  · simp [buildResponsesRequest, hstateful, hext, hremp]
  · simp [buildResponsesRequest, hstateful, hext]
  · intro ms' hnone
    have hext' : extractPreviousResponseId ms' cfg.id = none := by
      unfold extractPreviousResponseId
      exact extractPrevGo_all_none cfg.id ms' 0 none hnone
    refine ⟨hext', ?_, ?_⟩
    · simp [buildResponsesRequest, hstateful, hext']
    · simp [buildResponsesRequest, hstateful, hext']

/-- Witness for C5: the spec's 3-message scenario — only message 3 is
converted into the request items and the marker id is sent; with a marker
for a different model id the whole conversation is sent and no parameter
is set. -/
theorem c5_stateful_truncation_witness :
    extractPreviousResponseId c5msgs c5cfg.id = some ("resp_1", 2) ∧
    (buildResponsesRequest c5msgs c5cfg).2.previousResponseId =
      some "resp_1" ∧
    (buildResponsesRequest c5msgs c5cfg).2.input =
      convertMessagesToItems (c5msgs.drop 2) c5cfg ∧
    extractPreviousResponseId c5msgsOther c5cfg.id = none ∧
    (buildResponsesRequest c5msgsOther c5cfg).2.previousResponseId = none ∧
    (buildResponsesRequest c5msgsOther c5cfg).2.input =
      convertMessagesToItems c5msgsOther c5cfg :=
  have h := c5_stateful_truncation c5msgs c5cfg 1 "resp_1" (by decide)
    (by decide) rfl (by decide)
  have h4 := h.2.2.2 c5msgsOther (by decide)
  ⟨h.1, h.2.1, h.2.2.1, h4.1, h4.2.1, h4.2.2⟩

/-! ## C6: parsers consume one line per call and never throw -/

/-- A line starting with `data:` cannot also start with `event:`. -/
lemma data_line_not_event (line : String)
    (h : jsStartsWith line "data:" = true) :
    jsStartsWith line "event:" = false := by
  unfold jsStartsWith at h ⊢
  rw [show ("data:".data) = ['d', 'a', 't', 'a', ':'] from rfl] at h
  rw [show ("event:".data) = ['e', 'v', 'e', 'n', 't', ':'] from rfl]
  cases hl : line.data with
  | nil => rw [hl] at h; simp [List.isPrefixOf] at h
  | cons c cs =>
    rw [hl] at h
    simp [List.isPrefixOf] at h ⊢
    intro he
    rw [← he] at h
    simp at h

/-- C6: both stream parsers consume exactly one line per invocation and
have a total, never-throwing result: a chat line not starting with
`data:` is skipped; a Responses `event:` line only records the event type
and is skipped; a Responses line starting with neither prefix leaves the
state unchanged and is skipped; a `data:` line whose trimmed payload is
`[DONE]` yields `done` in both parsers (without touching Responses
state); and a `data:` line whose payload fails `JSON.parse` is skipped by
both parsers (again without touching Responses state). -/
theorem c6_one_event_per_line_total
    (line : String) (st : RespParserState) :
    (jsStartsWith line "data:" = false →
      chatParseStreamEvent line = .skip) ∧
    (jsStartsWith line "event:" = true →
      (respParseStreamEvent st line).2 = .skip) ∧
    (jsStartsWith line "event:" = false →
      jsStartsWith line "data:" = false →
      respParseStreamEvent st line = (st, .skip)) ∧
    (jsStartsWith line "data:" = true →
      jsTrimStr (line.drop 5) = "[DONE]" →
      chatParseStreamEvent line = .done ∧
      respParseStreamEvent st line = (st, .done)) ∧
    (jsStartsWith line "data:" = true →
      jsTrimStr (line.drop 5) ≠ "[DONE]" →
      jsonParse (jsTrimStr (line.drop 5)) = none →
      chatParseStreamEvent line = .skip ∧
      respParseStreamEvent st line = (st, .skip)) := by
  refine ⟨fun h1 => ?_, fun h2 => ?_, fun h3a h3b => ?_,
    fun h4a h4b => ⟨?_, ?_⟩, fun h5a h5b h5c => ⟨?_, ?_⟩⟩
  · simp [chatParseStreamEvent, h1]
  · simp [respParseStreamEvent, h2]
  · simp [respParseStreamEvent, h3a, h3b]
  · simp [chatParseStreamEvent, h4a, h4b]
  · simp [respParseStreamEvent, data_line_not_event line h4a, h4a, h4b]
  · simp [chatParseStreamEvent, h5a, h5b, h5c]
  · simp [respParseStreamEvent, data_line_not_event line h5a, h5a, h5b, h5c]

/-- Witness for C6: each clause applied at a concrete line — a plain
line, an `event:` line, a `data: [DONE]` line and a malformed-JSON data
line. -/
theorem c6_one_event_per_line_total_witness :
    chatParseStreamEvent "x" = .skip ∧
    (respParseStreamEvent ⟨[], 0, false, none, []⟩ "event: t").2 = .skip ∧
    respParseStreamEvent ⟨[], 0, false, none, []⟩ "x" =
      (⟨[], 0, false, none, []⟩, .skip) ∧
    chatParseStreamEvent "data: [DONE]" = .done ∧
    respParseStreamEvent ⟨[], 0, false, none, []⟩ "data: [DONE]" =
      (⟨[], 0, false, none, []⟩, .done) ∧
    chatParseStreamEvent "data: \x7boops" = .skip ∧
    respParseStreamEvent ⟨[], 0, false, none, []⟩ "data: \x7boops" =
      (⟨[], 0, false, none, []⟩, .skip) :=
  have hx := c6_one_event_per_line_total "x" ⟨[], 0, false, none, []⟩
  have he := c6_one_event_per_line_total "event: t" ⟨[], 0, false, none, []⟩
  have hd := c6_one_event_per_line_total "data: [DONE]"
    ⟨[], 0, false, none, []⟩
  have hb := c6_one_event_per_line_total "data: \x7boops"
    ⟨[], 0, false, none, []⟩
  have hdd := hd.2.2.2.1 (by decide) (by decide)
  have hbb := hb.2.2.2.2 (by decide) (by decide) rfl
  ⟨hx.1 (by decide), he.2.1 (by decide),
   hx.2.2.1 (by decide) (by decide),
   hdd.1, hdd.2, hbb.1, hbb.2⟩

/-! ## C7: tool-call deltas — the parser reads only the first array
element, not one event per call -/

set_option maxRecDepth 10000 in
/-- Counterexample for C7 as stated: on a delta line whose `tool_calls`
array holds two calls, the parser yields a single `toolCallDelta` event
(for element `[0]` only), not one per call as the spec says — the
spec-side list has length 2, the parser's event list has length 1. -/
theorem c7_only_first_call_counterexample :
    chatToolCallEventsOfLine c7line ≠ specChatToolCallDeltas c7parsedFull ∧
    jsonParse (jsTrimStr (c7line.drop 5)) = some c7parsedFull ∧
    (chatToolCallEventsOfLine c7line).length = 1 ∧
    (specChatToolCallDeltas c7parsedFull).length = 2 :=
  ⟨fun h => absurd (congrArg List.length h) (by decide), rfl, rfl, rfl⟩

/-- A present array value is truthy. -/
lemma jsTruthyO_some_arr (es : List Json) :
    jsTruthyO (some (Json.arr es)) = true := rfl

/-- C7 (amended): when a parsed delta line reaches the tool-call branch
(no thinking content, no text content) with a populated `tool_calls`
array, the parser emits exactly one `toolCallDelta` event, built from the
FIRST element of the array — using that element's upstream index
verbatim and its raw (possibly partial) arguments string; later elements
of the same array are ignored. -/
theorem c7_first_call_delta (line : String) (parsed choice tc : Json)
    (rest : List Json)
    (hline : jsStartsWith line "data:" = true)
    (hnd : jsTrimStr (line.drop 5) ≠ "[DONE]")
    (hparse : jsonParse (jsTrimStr (line.drop 5)) = some parsed)
    (hchoice : chatChoice0 parsed = some choice)
    (htr : jsTruthy choice = true)
    (hthink : jsNullish (jsGetO (some choice) "reasoning_content")
      (jsGetO (jsGet choice "delta") "reasoning_content") = none)
    (hcontent : jsTruthyO (jsGetO (jsGet choice "delta") "content") = false)
    (htc : jsGetO (jsGet choice "delta") "tool_calls" =
      some (.arr (tc :: rest))) :
    chatParseStreamEvent line =
      .toolCall (jsIndexOrZero (jsGetO (some tc) "index"))
        (jsStr (jsGetO (some tc) "id"))
        (jsStr (jsGetO (jsGetO (some tc) "function") "name"))
        (jsStr (jsGetO (jsGetO (some tc) "function") "arguments")) := by
  simp [chatParseStreamEvent, hline, hnd, hparse, chatParseJson, hchoice,
    htr, hthink, hcontent, htc, jsTruthyO_some_arr]

set_option maxRecDepth 10000 in
/-- Witness for C7's amended theorem: on the two-call line `c7line` the
parser emits the delta for call `a` (index 0, name `f1`) only. -/
theorem c7_first_call_delta_witness :
    chatParseStreamEvent c7line =
      .toolCall 0 (some "a") (some "f1") (some "\x7b\x7d") :=
  c7_first_call_delta c7line c7parsedFull c7choice c7tc [c7tc2]
    (by decide) (by decide) rfl rfl (by decide) rfl rfl rfl

end OAC
